import Mathlib

/-!
Verification development for the circlesubi-simulation repository.

The Python sources are shallowly embedded as follows:
* Python `dict` objects keyed by integers become association lists
  `List (ℤ × α)` with the dict operations `alistGet` / `alistSet`
  (`alistSet` removes any existing binding for the key before appending,
  so a write at an existing key overwrites it, as in Python).
* `decimal.Decimal` arithmetic (the module sets a 76-digit context that is
  exact for every computation appearing in the claims below) is modelled by
  exact rational arithmetic on `ℚ`; Python `int(...)` truncation toward zero
  is `truncInt`, Python `round(...)` (banker's rounding on `Decimal`) is
  `roundHE`, Python `//` on integers is `Int.fdiv`.
* A Python function that can raise an exception is modelled as returning
  `Option`, with `none` for the raising runs.
* Random account traits (`HumanEnvironment.default_traits`) and logging are
  opaque to every claim and are omitted from the state.
-/

namespace CirclesSim

/-! ## Association-list model of Python dicts -/

/-- Lookup in a dict modelled as an association list (`d[k]` / `d.get(k)`). -/
def alistGet {α : Type} (d : List (ℤ × α)) (k : ℤ) : Option α :=
  (d.find? (fun kv => kv.1 = k)).map Prod.snd

/-- Write `d[k] = v`: any existing binding of `k` is replaced. -/
def alistSet {α : Type} (d : List (ℤ × α)) (k : ℤ) (v : α) : List (ℤ × α) :=
  (d.filter (fun kv => ¬ kv.1 = k)) ++ [(k, v)]

/-- Python `max(d.keys())`; the default `0` is never consulted because every
use in the sources is guarded by (or modelled with) a nonempty dict. -/
def maxKey {α : Type} : List (ℤ × α) → ℤ
  | [] => 0
  | kv :: rest => rest.foldl (fun m x => max m x.1) kv.1

/-- Value stored at the most recent (largest) key of a time series. -/
def latest (d : List (ℤ × ℤ)) : ℤ :=
  (alistGet d (maxKey d)).getD 0

/-- All keys of `d` are at most `t` (time-monotonicity of a series). -/
def keyBound {α : Type} (d : List (ℤ × α)) (t : ℤ) : Prop :=
  ∀ kv ∈ d, kv.1 ≤ t

/-! ## Fixed-point arithmetic (`circlesUBI/utils/math.py`) -/

/-- Scaling constant `EXA = 10 ** 18`. -/
def EXA : ℤ := 10 ^ 18

/-- Python `int(q)` on an exact `Decimal`: truncation toward zero. -/
def truncInt (q : ℚ) : ℤ :=
  if q < 0 then -⌊-q⌋ else ⌊q⌋

/-- Lower bound `MIN_64x64 = Decimal('-9223372036854775808') * 2 ** 64`. -/
def MIN_64x64 : ℚ := -9223372036854775808 * 2 ^ 64

/-- Upper bound `MAX_64x64 = Decimal('9223372036854775807') * 2 ** 64`. -/
def MAX_64x64 : ℚ := 9223372036854775807 * 2 ^ 64

/-- Source `from_int(x) = Decimal(x) * 2 ** 64` (also applied to floats). -/
def from_int (x : ℚ) : ℚ := x * 2 ^ 64

/-- Source `pow_fixed`: normalize, exponentiate, re-scale. -/
def pow_fixed (x : ℚ) (y : ℤ) : ℚ := (x / 2 ^ 64) ^ y * 2 ^ 64

/-- Source `mul_fixed(x, y) = int(x * Decimal(y) / 2 ** 64)`. -/
def mul_fixed (x y : ℚ) : ℤ := truncInt (x * y / 2 ^ 64)

/-- Source `add_fixed`: exact sum, raising `OverflowError` (modelled `none`)
when the result is below `MIN_64x64` or above `MAX_64x64`. -/
def add_fixed (x y : ℚ) : Option ℚ :=
  if x + y < MIN_64x64 ∨ MAX_64x64 < x + y then none else some (x + y)

/-- Source `sub_fixed`: exact difference with the same overflow check. -/
def sub_fixed (x y : ℚ) : Option ℚ :=
  if x - y < MIN_64x64 ∨ MAX_64x64 < x - y then none else some (x - y)

/-- Python `round` on an exact `Decimal`: round half to even. -/
def roundHE (q : ℚ) : ℤ :=
  if q - ⌊q⌋ < 1 / 2 then ⌊q⌋
  else if (1 : ℚ) / 2 < q - ⌊q⌋ then ⌊q⌋ + 1
  else if ⌊q⌋ % 2 = 0 then ⌊q⌋ else ⌊q⌋ + 1

/-! ## Demurrage (`circlesUBI/demurrage.py`) -/

namespace Demurrage

/-- Fixed-point literal `GAMMA_64x64` from the source. -/
def GAMMA_64x64 : ℚ := 18443079296116538654

/-- Exact decimal literal `GAMMA` from the source. -/
def GAMMA : ℚ := 9998013320085989574306134065681911664857225676913333806934 / 10 ^ 58

/-- Balance ceiling `MAX_VALUE = 2 ** 192 - 1`. -/
def MAX_VALUE : ℤ := 2 ^ 192 - 1

/-- Source `day_since_day0(time) = (time - 0) // DEMURRAGE_WINDOW` with
`DEMURRAGE_WINDOW = 24`; Python `//` floors. -/
def day_since_day0 (t : ℤ) : ℤ := Int.fdiv t 24

/-- Source `calculate_demurrage_factor(day_diff) = pow_fixed(GAMMA_64x64, day_diff)`. -/
def calculate_demurrage_factor (day_diff : ℤ) : ℚ :=
  pow_fixed GAMMA_64x64 day_diff

/-- Source `calculate_discounted_balance`: the balance itself when
`day_diff == 0`, otherwise `mul_fixed(factor, balance)`. -/
def calculate_discounted_balance (balance day_diff : ℤ) : ℤ :=
  if day_diff = 0 then balance
  else mul_fixed (calculate_demurrage_factor day_diff) (balance : ℚ)

/-- Source `T(n) = round(from_int(24 * ((GAMMA^n - 1)/(GAMMA - 1) + GAMMA^n)))`. -/
def T (n : ℤ) : ℚ :=
  ((roundHE (from_int (24 * ((GAMMA ^ n - 1) / (GAMMA - 1) + GAMMA ^ n))) : ℤ) : ℚ)

/-- Source `R(n) = round(from_int(GAMMA ** n))`. -/
def R (n : ℤ) : ℚ :=
  ((roundHE (from_int (GAMMA ^ n)) : ℤ) : ℚ)

end Demurrage

/-! ## Issuance (`circlesUBI/circles.py`) -/

/-- Claim window cap `MAX_CLAIM_DURATION = 14 * 24` ticks. -/
def MAX_CLAIM_DURATION : ℤ := 14 * 24

/-- Source `Circles.calculate_issuance(mint_times, current_time)`, returning
`(issuance, claimable_period_start, claimable_period_end)`.  `none` models the
raising runs: `max()` on empty `mint_times`, an overflow in
`add_fixed`/`sub_fixed`, and the `issuance < 0` branch, whose debug `print`
evaluates the undefined name `T(1)` and therefore raises `NameError` before
the function can return. -/
def calculate_issuance (mint_times : List ℤ) (current_time : ℤ) :
    Option (ℤ × ℤ × ℤ) :=
  match mint_times with
  | [] => none
  | t0 :: rest =>
    let last_mint_time := rest.foldl max t0
    let start_mint := max (current_time - MAX_CLAIM_DURATION) last_mint_time
    let dA := Demurrage.day_since_day0 start_mint
    let dB := Demurrage.day_since_day0 current_time
    let n := dB - dA
    let complete_hours := from_int ((start_mint : ℚ) - (dA : ℚ) * 24)
    let incomplete_hours := from_int (((dB : ℚ) + 1) * 24 - (current_time : ℚ))
    match add_fixed ((mul_fixed (Demurrage.R n) complete_hours : ℤ) : ℚ)
        incomplete_hours with
    | none => none
    | some overcount =>
      match sub_fixed (Demurrage.T n) overcount with
      | none => none
      | some diff =>
        let issuance := mul_fixed diff (EXA : ℚ)
        let claimable_period_start := dA * 24 + mul_fixed complete_hours 1
        let claimable_period_end := dB * 24 + 24 - mul_fixed incomplete_hours 1
        if issuance < 0 then none
        else some (issuance, claimable_period_start, claimable_period_end)

/-- Source `Circles.mint_and_update_total_supply`: discount across the day
difference, add the issuance, and accept the new pair only when the result is
at most `MAX_VALUE`; returns `(last_updated_day, balance)`. -/
def mint_and_update_total_supply (balance issuance current_day last_updated_day : ℤ) :
    ℤ × ℤ :=
  let day_diff := current_day - last_updated_day
  let new_total_supply :=
    Demurrage.calculate_discounted_balance balance day_diff + issuance
  if new_total_supply ≤ Demurrage.MAX_VALUE then (current_day, new_total_supply)
  else (last_updated_day, balance)

/-! ## Ledger state (`circlesUBI/hub.py`, class `HumanEnvironment`) -/

/-- Value of one trust edge: `{'created_at': ..., 'amount': ..., 'duration': ...}`. -/
structure TrustData where
  created_at : ℤ
  amount : ℤ
  duration : ℤ
deriving DecidableEq, Repr

/-- Value of one mint record: `{'day': ..., 'issuance': ...}`. -/
structure MintEntry where
  day : ℤ
  issuance : ℤ
deriving DecidableEq, Repr

/-- The mutable dictionaries of `HumanEnvironment`: `balance` maps a holder to
a per-issuer time series, `supply` and `mints` map an issuer to a time series,
`trusts` maps a truster to its per-trustee edges.  The random `traits` bundle
and `population_size` are consulted by no claim and are omitted. -/
structure Env where
  balance : List (ℤ × List (ℤ × List (ℤ × ℤ)))
  supply : List (ℤ × List (ℤ × ℤ))
  trusts : List (ℤ × List (ℤ × TrustData))
  mints : List (ℤ × List (ℤ × MintEntry))
deriving DecidableEq, Repr

/-- Source `HumanEnvironment.update_balance`: read the latest self-balance,
add `change`, write `(current_time, new_balance)` only when the result is
strictly positive, and return `new_balance` in every non-raising run.  `none`
models the raising runs (id missing from `balance`, or the inner
`self.balance[id][id]` lookup / `max()` call failing). -/
def HumanEnvironment.update_balance (env : Env) (current_time human_id change : ℤ) :
    Option (ℤ × Env) :=
  match alistGet env.balance human_id with
  | none => none
  | some m =>
    match alistGet m human_id with
    | none => none
    | some ts =>
      match ts with
      | [] => none
      | _ :: _ =>
        let new_balance := latest ts + change
        if 0 < new_balance then
          some (new_balance,
            { env with balance := (alistSet env.balance human_id
                (alistSet m human_id (alistSet ts current_time new_balance))) })
        else some (new_balance, env)

/-- Source `HumanEnvironment.add_trust`: insert the edge, a silent no-op when
an edge for the ordered pair already exists. -/
def HumanEnvironment.add_trust (env : Env) (human_id trusting_on_human_id : ℤ)
    (trust_data : TrustData) : Env :=
  match alistGet env.trusts human_id with
  | none =>
    { env with trusts := (alistSet env.trusts human_id
        [(trusting_on_human_id, trust_data)]) }
  | some m =>
    match alistGet m trusting_on_human_id with
    | some _ => env
    | none =>
      { env with trusts := (alistSet env.trusts human_id
          (alistSet m trusting_on_human_id trust_data)) }

/-! ## Hub operations (`circlesUBI/hub.py`, class `Hub`) -/

/-- Source `Hub.register_human`: seed `balance[id][id]` and `supply[id]` with
`mul_fixed(init_native_balance, EXA)` and the mint record with
`init_native_balance * EXA` at `created_at`.  The `invited_by` argument only
enters the omitted random trait bundle. -/
def Hub.register_human (env : Env) (created_at human_id init_native_balance : ℤ) : Env :=
  let v := mul_fixed (init_native_balance : ℚ) ((EXA : ℤ) : ℚ)
  { env with
    balance := alistSet env.balance human_id [(human_id, [(created_at, v)])]
    supply := alistSet env.supply human_id [(created_at, v)]
    mints := alistSet env.mints human_id
      [(created_at, ⟨Demurrage.day_since_day0 created_at, init_native_balance * EXA⟩)] }

/-- Source `Hub.establish_trusts`: build the trust data (amount
`mul_fixed(value, EXA)`) and delegate to `add_trust`. -/
def Hub.establish_trusts (env : Env)
    (current_time human_id trusting_on_human_id value trust_duration : ℤ) : Env :=
  HumanEnvironment.add_trust env human_id trusting_on_human_id
    ⟨current_time, mul_fixed (value : ℚ) ((EXA : ℤ) : ℚ), trust_duration⟩

/-- Source `Hub.invite_human`: charge the inviter `mul_fixed(10, EXA)` via
`update_balance`; when the returned balance is nonnegative, register the new
account and establish the inviter→invitee trust edge with `value=100`,
`trust_duration=1e9`; otherwise raise (modelled `none`). -/
def Hub.invite_human (env : Env)
    (current_time new_human_id invited_by init_native_balance : ℤ) : Option Env :=
  match HumanEnvironment.update_balance env current_time invited_by
      (-(mul_fixed (10 : ℚ) ((EXA : ℤ) : ℚ))) with
  | none => none
  | some (new_host_balance, env1) =>
    if 0 ≤ new_host_balance then
      some (Hub.establish_trusts
        (Hub.register_human env1 current_time new_human_id init_native_balance)
        current_time invited_by new_human_id 100 1000000000)
    else none

/-- Source `Hub.update_supply`: when whole days have passed since the last
supply entry, append the demurrage-discounted supply at `current_time`;
otherwise leave the series unchanged. -/
def Hub.update_supply (env : Env) (human_id current_time : ℤ) : Option (ℤ × Env) :=
  match alistGet env.supply human_id with
  | none => none
  | some s =>
    match s with
    | [] => none
    | _ :: _ =>
      let last_supply_time := maxKey s
      let last_supply := latest s
      let days_passed := Demurrage.day_since_day0 current_time -
        Demurrage.day_since_day0 last_supply_time
      if 0 < days_passed then
        let new_supply := Demurrage.calculate_discounted_balance last_supply days_passed
        some (new_supply,
          { env with supply := (alistSet env.supply human_id
              (alistSet s current_time new_supply)) })
      else some (last_supply, env)

/-- Source `Hub.mint`: compute the issuance; return `None` (modelled
`some (none, env)`) when it is exactly `0`; otherwise write the mint record
and the updated supply and credit the balance, returning the issuance. -/
def Hub.mint (env : Env) (human_id current_time : ℤ) : Option (Option ℤ × Env) :=
  match alistGet env.mints human_id with
  | none => none
  | some ms =>
    match alistGet env.supply human_id with
    | none => none
    | some s =>
      match calculate_issuance (ms.map Prod.fst) current_time with
      | none => none
      | some (issuance, _, _) =>
        if issuance = 0 then some (none, env)
        else
          match s with
          | [] => none
          | _ :: _ =>
            let current_day := Demurrage.day_since_day0 current_time
            let last_updated_day := maxKey s
            let total_supply := latest s
            let p := mint_and_update_total_supply total_supply issuance
              current_day last_updated_day
            let env1 := { env with mints := (alistSet env.mints human_id
                (alistSet ms current_time ⟨p.1, issuance⟩)) }
            let env2 := { env1 with supply := (alistSet env1.supply human_id
                (alistSet s current_time p.2)) }
            match HumanEnvironment.update_balance env2 current_time human_id issuance with
            | none => none
            | some (_, env3) => some (some issuance, env3)

/-- Source `Hub.transfer`: the five validation checks in order (self-transfer,
sender self-balance, receiver→sender trust edge, edge capacity, edge expiry;
every stored edge carries a `duration`, so the `'duration' in trust_data`
test of the source is always true), then debit, credit and the two supply
refreshes.  `none` models every raising run; each raising check of the source
precedes the first mutation whenever both accounts are registered. -/
def Hub.transfer (env : Env) (sender_id receiver_id amount current_time : ℤ) :
    Option (ℤ × ℤ × Env) :=
  if sender_id = receiver_id then none
  else
    match alistGet env.balance sender_id with
    | none => none
    | some m =>
      match alistGet m sender_id with
      | none => none
      | some ts =>
        match ts with
        | [] => none
        | _ :: _ =>
          if latest ts < amount then none
          else
            match alistGet env.trusts receiver_id with
            | none => none
            | some tr =>
              match alistGet tr sender_id with
              | none => none
              | some td =>
                if td.amount < amount then none
                else if td.created_at + td.duration < current_time then none
                else
                  match HumanEnvironment.update_balance env current_time sender_id
                      (-amount) with
                  | none => none
                  | some (nsb, env1) =>
                    match HumanEnvironment.update_balance env1 current_time
                        receiver_id amount with
                    | none => none
                    | some (nrb, env2) =>
                      match Hub.update_supply env2 sender_id current_time with
                      | none => none
                      | some (_, env3) =>
                        match Hub.update_supply env3 receiver_id current_time with
                        | none => none
                        | some (_, env4) => some (nsb, nrb, env4)

/-! ## Driver-level helpers (`ABM_simulation/agents.py`, class `HubAgent`) -/

/-- Source `HubAgent.get_currency_balance`: latest value of
`balance[human_id][currency_id]`, or `0` when the entry is missing or empty. -/
def HubAgent.get_currency_balance (env : Env) (human_id currency_id : ℤ) : ℤ :=
  match alistGet env.balance human_id with
  | none => 0
  | some m =>
    match alistGet m currency_id with
    | none => 0
    | some ts =>
      match ts with
      | [] => 0
      | _ :: _ => latest ts

/-- Source `HubAgent.get_trust_amount`: `trusts[truster][trustee]['amount']`
with default `0`. -/
def HubAgent.get_trust_amount (env : Env) (truster trustee : ℤ) : ℤ :=
  match alistGet env.trusts truster with
  | none => 0
  | some m =>
    match alistGet m trustee with
    | none => 0
    | some td => td.amount

/-- Source `HubAgent.calculate_gini` applied to a list of self-balances:
`0` on the empty list, otherwise sort ascending and return
`1 - 2 * sum(i/n * b_i) / sum(b)` with `i` running from `0`. -/
def HubAgent.calculate_gini (balances : List ℤ) : ℚ :=
  match balances with
  | [] => 0
  | _ :: _ =>
    let sorted := balances.insertionSort (· ≤ ·)
    let n := sorted.length
    1 - 2 * (((List.range n).zip sorted).map
        (fun p => (p.1 : ℚ) / (n : ℚ) * (p.2 : ℚ))).sum
      / (sorted.map (fun b => (b : ℚ))).sum

/-- One iteration of the hop loop in source `HubAgent.transfer`: the
`Hub.transfer` call for the hop followed by the driver's two direct dict
writes (overwrite of `balance[from_id][from_id][t]` with a further `- amount`,
and the credit of `balance[to_id][from_id][t]`). -/
def HubAgent.transfer_hop (env : Env) (from_id to_id amount current_time : ℤ) :
    Option Env :=
  match Hub.transfer env from_id to_id amount current_time with
  | none => none
  | some (_, _, env1) =>
    let current_balance := HubAgent.get_currency_balance env1 from_id from_id
    match alistGet env1.balance from_id with
    | none => none
    | some m =>
      match alistGet m from_id with
      | none => none
      | some ts =>
        let env2 := { env1 with balance := (alistSet env1.balance from_id
            (alistSet m from_id (alistSet ts current_time
              (current_balance - amount)))) }
        let current_balance2 := HubAgent.get_currency_balance env2 to_id from_id
        match alistGet env2.balance to_id with
        | none => none
        | some m2 =>
          let new_series :=
            match alistGet m2 from_id with
            | some ts2 => alistSet ts2 current_time (current_balance2 + amount)
            | none => [(current_time, amount)]
          some { env2 with balance := (alistSet env2.balance to_id
              (alistSet m2 from_id new_series)) }

/-! ## Path finding (`ABM_simulation/pathfinder.py`) -/

/-- Depth-first enumeration of the simple paths of at most `fuel` edges from
`u` to `target`, following the trust-graph edge list; this models
`nx.all_simple_paths(G, u, target, cutoff=fuel)`. -/
def PathFinder.simple_paths_aux (edges : List (ℤ × ℤ)) :
    ℕ → ℤ → ℤ → List ℤ → List (List ℤ)
  | fuel, u, target, visited =>
    if u = target then [[u]]
    else
      match fuel with
      | 0 => []
      | fuel' + 1 =>
        (((edges.filter (fun e => e.1 = u ∧ ¬ e.2 ∈ (u :: visited))).map
            Prod.snd).flatMap
          (fun v => PathFinder.simple_paths_aux edges fuel' v target
            (u :: visited))).map (fun p => u :: p)

/-- Source `PathFinder.find_transfer_paths`: all simple paths with the
default `max_depth=5`, traversed from `target` to `source` because the trust
direction is opposite to the transfer direction. -/
def PathFinder.find_transfer_paths (edges : List (ℤ × ℤ)) (source target : ℤ) :
    List (List ℤ) :=
  PathFinder.simple_paths_aux edges 5 target source []

/-- Loop of source `PathFinder.get_max_transfer_amount`: running minimum of
the hop trust capacity `get_trust_amount(path[i+1], path[i])` and the paying
node's own balance `get_currency_balance(path[i], path[i])`, starting from
the requested amount, stopping early as soon as it falls below the amount. -/
def PathFinder.get_max_aux (env : Env) (amount : ℤ) : ℤ → List ℤ → ℤ
  | m, p0 :: p1 :: rest =>
    let m' := min (min m (HubAgent.get_trust_amount env p1 p0))
      (HubAgent.get_currency_balance env p0 p0)
    if m' < amount then m'
    else PathFinder.get_max_aux env amount m' (p1 :: rest)
  | m, _ => m

/-- Source `PathFinder.get_max_transfer_amount(path, amount)`. -/
def PathFinder.get_max_transfer_amount (env : Env) (path : List ℤ) (amount : ℤ) : ℤ :=
  PathFinder.get_max_aux env amount amount path

/-- Loop of source `PathFinder.find_optimal_transfer_path`: accept a path
when it covers the amount and is shorter than the current optimum (or none is
held), else when its reported maximum beats the held one. -/
def PathFinder.find_optimal_aux (env : Env) (amount : ℤ) :
    List (List ℤ) → Option (List ℤ) × ℤ → Option (List ℤ) × ℤ
  | [], acc => acc
  | p :: rest, (optimal_path, max_transferable) =>
    let path_max := PathFinder.get_max_transfer_amount env p amount
    let shorter : Bool :=
      match optimal_path with
      | none => true
      | some q => decide (p.length < q.length)
    if amount ≤ path_max ∧ shorter = true then
      PathFinder.find_optimal_aux env amount rest (some p, path_max)
    else if max_transferable < path_max then
      PathFinder.find_optimal_aux env amount rest (some p, path_max)
    else
      PathFinder.find_optimal_aux env amount rest (optimal_path, max_transferable)

/-- Source `PathFinder.find_optimal_transfer_path(source, target, amount)`. -/
def PathFinder.find_optimal_transfer_path (env : Env) (edges : List (ℤ × ℤ))
    (source target amount : ℤ) : Option (List ℤ) × ℤ :=
  PathFinder.find_optimal_aux env amount
    (PathFinder.find_transfer_paths edges source target) (none, 0)

/-- The max_transferable of a path in the words of the claim being checked:
the minimum over ALL consecutive hops of the hop's trust capacity and the
paying node's own-token balance, capped at the requested amount, with no
early stop.  Kept separate from `PathFinder.get_max_transfer_amount` so the
two can be compared. -/
def pathMaxSpec (env : Env) (amount : ℤ) : List ℤ → ℤ
  | p0 :: p1 :: rest =>
    min (min (pathMaxSpec env amount (p1 :: rest))
      (HubAgent.get_trust_amount env p1 p0))
      (HubAgent.get_currency_balance env p0 p0)
  | _ => amount

/-! ## Concrete environments used by the closed theorems below -/

/-- The empty environment (fresh `HumanEnvironment()`). -/
def emptyEnv : Env := ⟨[], [], [], []⟩

/-- One account `1` whose self-balance series is `{0: 5}`. -/
def envB5 : Env := ⟨[(1, [(1, [(0, 5)])])], [], [], []⟩

/-- Accounts `1` (self-balance `{0: 10}`) and `2` (self-balance `{0: 3}`),
with seeded supplies and a trust edge `2 → 1` of capacity `50`, created at
`0` with duration `1000`. -/
def envT : Env :=
  ⟨[(1, [(1, [(0, 10)])]), (2, [(2, [(0, 3)])])],
   [(1, [(0, 10)]), (2, [(0, 3)])],
   [(2, [(1, ⟨0, 50, 1000⟩)])],
   []⟩

/-- Route scenario: nodes `0`, `1`, `2` hold own-token balance `100`;
trust capacities consulted by the hops of the two candidate routes
`[0, 1, 3]` and `[0, 2, 3]` are `trust(1,0)=5`, `trust(3,1)=3`,
`trust(2,0)=4`, `trust(3,2)=4`. -/
def envRoute : Env :=
  ⟨[(0, [(0, [(0, 100)])]), (1, [(1, [(0, 100)])]), (2, [(2, [(0, 100)])])],
   [],
   [(1, [(0, ⟨0, 5, 1000⟩)]), (2, [(0, ⟨0, 4, 1000⟩)]),
    (3, [(1, ⟨0, 3, 1000⟩), (2, ⟨0, 4, 1000⟩)])],
   []⟩

/-- Trust-graph edge list for the route scenario (edges run truster→trustee,
giving the two candidate paths `0→1→3` and `0→2→3` from receiver `0` to
sender `3`). -/
def edgesRoute : List (ℤ × ℤ) := [(0, 1), (0, 2), (1, 3), (2, 3)]

/-- The environment produced by `register_human(0, 1, init_native_balance=50)`
on the empty environment, written out literally. -/
def envReg : Env :=
  ⟨[(1, [(1, [(0, 2)])])], [(1, [(0, 2)])], [], [(1, [(0, ⟨0, 50 * EXA⟩)])]⟩

/-! ## Helper lemmas about the dict model -/

theorem alistGet_set_self {α : Type} (d : List (ℤ × α)) (k : ℤ) (v : α) :
    alistGet (alistSet d k v) k = some v := by
  unfold alistGet alistSet
  rw [List.find?_append]
  have h : (d.filter (fun kv => ¬ kv.1 = k)).find? (fun kv => kv.1 = k) = none := by
    rw [List.find?_eq_none]
    intro x hx
    have := (List.mem_filter.mp hx).2
    simpa using this
  simp [h]

theorem alistGet_set_ne {α : Type} (d : List (ℤ × α)) (k k' : ℤ) (v : α)
    (h : ¬ k' = k) : alistGet (alistSet d k v) k' = alistGet d k' := by
  unfold alistGet alistSet
  rw [List.find?_append]
  have h3 : ∀ l : List (ℤ × α),
      (l.filter (fun kv => ¬ kv.1 = k)).find? (fun kv => kv.1 = k') =
        l.find? (fun kv => kv.1 = k') := by
    intro l
    induction l with
    | nil => rfl
    | cons x xs ih =>
      by_cases hx : x.1 = k
      · have hx' : ¬ x.1 = k' := fun hh => h (hh ▸ hx)
        rw [List.filter_cons_of_neg (by simp [hx]),
          List.find?_cons_of_neg _ (by simp [hx']), ih]
      · rw [List.filter_cons_of_pos (by simpa using hx)]
        by_cases hx' : x.1 = k'
        · rw [List.find?_cons_of_pos _ (by simpa using hx'),
            List.find?_cons_of_pos _ (by simpa using hx')]
        · rw [List.find?_cons_of_neg _ (by simpa using hx'),
            List.find?_cons_of_neg _ (by simpa using hx'), ih]
  rw [h3 d]
  have h2 : List.find? (fun kv => kv.1 = k') [(k, v)] = none := by
    rw [List.find?_cons_of_neg _ (by simp; exact fun hh => h hh.symm)]
    rfl
  rw [h2]
  cases d.find? (fun kv => kv.1 = k') <;> simp

theorem foldl_max_le {α : Type} (l : List (ℤ × α)) (c : ℤ) :
    ∀ m : ℤ, m ≤ c → (∀ x ∈ l, x.1 ≤ c) →
      l.foldl (fun a x => max a x.1) m ≤ c := by
  induction l with
  | nil => intro m hm _; simpa using hm
  | cons x xs ih =>
    intro m hm hl
    simp only [List.foldl_cons]
    exact ih (max m x.1) (max_le hm (hl x (by simp)))
      (fun y hy => hl y (by simp [hy]))

theorem le_foldl_max {α : Type} (l : List (ℤ × α)) :
    ∀ m : ℤ, m ≤ l.foldl (fun a x => max a x.1) m := by
  induction l with
  | nil => intro m; simp
  | cons x xs ih =>
    intro m
    simp only [List.foldl_cons]
    exact le_trans (le_max_left m x.1) (ih (max m x.1))

theorem maxKey_set_eq {α : Type} (d : List (ℤ × α)) (t : ℤ) (v : α)
    (h : keyBound d t) : maxKey (alistSet d t v) = t := by
  unfold alistSet maxKey
  have hf : ∀ x ∈ d.filter (fun kv => ¬ kv.1 = t), x.1 ≤ t := by
    intro x hx
    exact h x (List.mem_filter.mp hx).1
  cases hd : d.filter (fun kv => ¬ kv.1 = t) with
  | nil => simp
  | cons kv rest =>
    simp only [List.cons_append, List.foldl_append, List.foldl_cons, List.foldl_nil]
    have h1 : kv.1 ≤ t := by
      have : kv ∈ d.filter (fun kv => ¬ kv.1 = t) := by rw [hd]; simp
      exact h kv (List.mem_filter.mp this).1
    have h2 : ∀ x ∈ rest, x.1 ≤ t := by
      intro x hx
      have : x ∈ d.filter (fun kv => ¬ kv.1 = t) := by rw [hd]; simp [hx]
      exact h x (List.mem_filter.mp this).1
    have := foldl_max_le rest t kv.1 h1 h2
    omega

theorem latest_set (d : List (ℤ × ℤ)) (t v : ℤ) (h : keyBound d t) :
    latest (alistSet d t v) = v := by
  unfold latest
  rw [maxKey_set_eq d t v h, alistGet_set_self]
  rfl

theorem keyBound_set {α : Type} (d : List (ℤ × α)) (t : ℤ) (v : α)
    (h : keyBound d t) : keyBound (alistSet d t v) t := by
  intro kv hkv
  rcases List.mem_append.mp hkv with h1 | h1
  · exact h kv (List.mem_filter.mp h1).1
  · simp at h1; simp [h1]

theorem alistSet_ne_nil {α : Type} (d : List (ℤ × α)) (k : ℤ) (v : α) :
    alistSet d k v ≠ [] := by
  unfold alistSet
  simp


/-- Reading `get_currency_balance` through known lookups. -/
theorem get_currency_balance_eq (env : Env) (h c : ℤ)
    (m : List (ℤ × List (ℤ × ℤ))) (ts : List (ℤ × ℤ))
    (h1 : alistGet env.balance h = some m) (h2 : alistGet m c = some ts)
    (h3 : ts ≠ []) : HubAgent.get_currency_balance env h c = latest ts := by
  unfold HubAgent.get_currency_balance
  simp only [h1, h2]
  cases ts with
  | nil => exact absurd rfl h3
  | cons a l => rfl


/-! ## Evaluation lemmas for the fixed-point constants -/

theorem mul_fixed_cast50 : mul_fixed ((50 : ℤ) : ℚ) ((EXA : ℤ) : ℚ) = 2 := by
  norm_num [mul_fixed, truncInt, EXA]

theorem mul_fixed_lit10 : mul_fixed (10 : ℚ) ((EXA : ℤ) : ℚ) = 0 := by
  norm_num [mul_fixed, truncInt, EXA]

theorem mul_fixed_cast100 : mul_fixed ((100 : ℤ) : ℚ) ((EXA : ℤ) : ℚ) = 5 := by
  norm_num [mul_fixed, truncInt, EXA]

theorem register_human_eval : Hub.register_human emptyEnv 0 1 50 = envReg := by
  simp only [Hub.register_human, mul_fixed_cast50]
  decide

/-! ## Claim theorems -/

/-- C1: registering a fresh account `A` with `init_balance = 50` is claimed
to seed Balance, Supply and Mint with `50 * EXA` and to make the immediate
self-balance read return `50 * EXA`.  The code passes the plain integer `50`
to `mul_fixed`, which divides by `2^64`, so Balance and Supply are seeded
with `⌊50 · EXA / 2^64⌋ = 2` while the Mint record of the very same call
stores `50 * EXA`; the round-trip read returns `2 ≠ 50 * EXA`. -/
theorem C1_register_seeds_truncated :
    HubAgent.get_currency_balance (Hub.register_human emptyEnv 0 1 50) 1 1 = 2 ∧
    alistGet (Hub.register_human emptyEnv 0 1 50).supply 1 = some [(0, 2)] ∧
    alistGet (Hub.register_human emptyEnv 0 1 50).mints 1 =
      some [(0, ⟨0, 50 * EXA⟩)] ∧
    (2 : ℤ) ≠ 50 * EXA := by
  rw [register_human_eval]
  decide

/-- C2 counterexample: with self-balance history `{0: 5}`, the update
`change = -7` at time `1` yields `new_amount = -2 < 0`; the claim says the
call must be rejected, but the code raises nothing: it returns `-2` and
leaves the state unchanged. -/
theorem C2_no_rejection_on_negative :
    HumanEnvironment.update_balance envB5 1 1 (-7) = some (-2, envB5) := by
  decide

/-- C2 amended: `update_balance` computes `new_amount = latest + change`,
appends `(time, new_amount)` only when `new_amount > 0` (a result of `0` is
also not recorded), and always returns `new_amount` without failing. -/
theorem C2_amended_update_balance (env : Env) (t id c : ℤ)
    (m : List (ℤ × List (ℤ × ℤ))) (ts : List (ℤ × ℤ))
    (h1 : alistGet env.balance id = some m) (h2 : alistGet m id = some ts)
    (h3 : ts ≠ []) (h4 : keyBound ts t) :
    ∃ env', HumanEnvironment.update_balance env t id c =
        some (latest ts + c, env') ∧
      (latest ts + c ≤ 0 → env' = env) ∧
      (0 < latest ts + c →
        HubAgent.get_currency_balance env' id id = latest ts + c) := by
  unfold HumanEnvironment.update_balance
  simp only [h1, h2]
  cases ts with
  | nil => exact absurd rfl h3
  | cons a l =>
    by_cases hpos : 0 < latest (a :: l) + c
    · rw [if_pos hpos]
      refine ⟨_, rfl, fun hle => absurd hpos (by omega), fun _ => ?_⟩
      rw [get_currency_balance_eq _ id id _ _ (alistGet_set_self _ _ _)
        (alistGet_set_self _ _ _) (alistSet_ne_nil _ _ _)]
      exact latest_set _ t _ h4
    · rw [if_neg hpos]
      exact ⟨env, rfl, fun _ => rfl, fun hp => absurd hp hpos⟩

/-- C2 amended, witnessed at a concrete input: account `1` with history
`{0: 5}` updated by `+3` at time `1` returns `8` and records it. -/
theorem C2_amended_update_balance_witness :
    ∃ env', HumanEnvironment.update_balance envB5 1 1 3 = some (8, env') ∧
      HubAgent.get_currency_balance env' 1 1 = 8 := by
  obtain ⟨e, he, h0, hp⟩ := C2_amended_update_balance envB5 1 1 3
    [(1, [(0, 5)])] [(0, 5)] (by decide) (by decide) (by decide)
    (by unfold keyBound; decide)
  have hl : latest [(0, 5)] = 5 := by decide
  rw [hl] at he hp
  exact ⟨e, by simpa using he, by simpa using hp (by norm_num)⟩

/-- C6 counterexample: the sum `MAX_64x64 + 1 = 2^127 - 2^64 + 1` lies inside
the claimed representable range `[-2^127, 2^127 - 1]`, yet `add_fixed`
raises. -/
theorem C6_rejects_value_inside_claimed_range :
    add_fixed (9223372036854775807 * 2 ^ 64) 1 = none ∧
    -(2 ^ 127) ≤ (9223372036854775807 * 2 ^ 64 + 1 : ℚ) ∧
    (9223372036854775807 * 2 ^ 64 + 1 : ℚ) ≤ 2 ^ 127 - 1 := by
  refine ⟨?_, by norm_num, by norm_num⟩
  norm_num [add_fixed, MIN_64x64, MAX_64x64]

/-- C6 amended: `add_fixed`/`sub_fixed` fail exactly when the exact result
falls outside `[-2^127, 2^127 - 2^64]` (that is, outside
`[MIN_64x64, MAX_64x64] = [-2^63 · 2^64, (2^63 - 1) · 2^64]`), and otherwise
return the exact sum/difference, never a wrapped value. -/
theorem checked_range_spec (v : ℚ) :
    ((if v < MIN_64x64 ∨ MAX_64x64 < v then (none : Option ℚ) else some v) = none ↔
      (v < -(2 ^ 127) ∨ 2 ^ 127 - 2 ^ 64 < v)) ∧
    ((if v < MIN_64x64 ∨ MAX_64x64 < v then (none : Option ℚ) else some v) = some v ↔
      (-(2 ^ 127) ≤ v ∧ v ≤ 2 ^ 127 - 2 ^ 64)) ∧
    (∀ z, (if v < MIN_64x64 ∨ MAX_64x64 < v then (none : Option ℚ) else some v) =
      some z → z = v) := by
  have hmin : MIN_64x64 = -(2 ^ 127) := by norm_num [MIN_64x64]
  have hmax : MAX_64x64 = 2 ^ 127 - 2 ^ 64 := by norm_num [MAX_64x64]
  rw [hmin, hmax]
  split_ifs with h
  · refine ⟨iff_of_true rfl h, iff_of_false (by simp) ?_, fun z hz => by simp at hz⟩
    rintro ⟨h1, h2⟩
    rcases h with h | h <;> linarith
  · push_neg at h
    refine ⟨iff_of_false (by simp) ?_, iff_of_true rfl h,
      fun z hz => (Option.some.inj hz).symm⟩
    rintro (hc | hc) <;> linarith [h.1, h.2]

theorem C6_amended_overflow_bounds (x y : ℚ) :
    (add_fixed x y = none ↔
      (x + y < -(2 ^ 127) ∨ 2 ^ 127 - 2 ^ 64 < x + y)) ∧
    (add_fixed x y = some (x + y) ↔
      (-(2 ^ 127) ≤ x + y ∧ x + y ≤ 2 ^ 127 - 2 ^ 64)) ∧
    (∀ z, add_fixed x y = some z → z = x + y) ∧
    (sub_fixed x y = none ↔
      (x - y < -(2 ^ 127) ∨ 2 ^ 127 - 2 ^ 64 < x - y)) ∧
    (sub_fixed x y = some (x - y) ↔
      (-(2 ^ 127) ≤ x - y ∧ x - y ≤ 2 ^ 127 - 2 ^ 64)) ∧
    (∀ z, sub_fixed x y = some z → z = x - y) := by
  have h1 := checked_range_spec (x + y)
  have h2 := checked_range_spec (x - y)
  exact ⟨h1.1, h1.2.1, h1.2.2, h2.1, h2.2.1, h2.2.2⟩

/-- C8: the claim says `calculate_gini` on `[0, 0, 0, 100]` returns `0.75`
(indeed the Gini coefficient of that distribution); the code's formula
`1 - 2 * sum(i/n * b_i) / sum(b)` with zero-based `i` evaluates to `-0.5`
instead (a Gini coefficient of a nonnegative distribution can never be
negative, so the formula, not the claim, is off).  The empty case does
return `0`. -/
theorem C8_gini_values :
    HubAgent.calculate_gini [0, 0, 0, 100] = -(1 / 2) ∧
    HubAgent.calculate_gini [] = 0 := by
  constructor
  · have hs : List.insertionSort (fun a b => a ≤ b) ([0, 0, 0, 100] : List ℤ) =
        [0, 0, 0, 100] := by decide
    simp only [HubAgent.calculate_gini, hs]
    norm_num [List.range_succ]
  · rfl

/-- C7: the claim says `invite` deducts `10 * EXA` base units, fails with
`InsufficientBalance` when the inviter cannot pay, and records capacity
`100`.  The code charges `mul_fixed(10, EXA) = ⌊10 · EXA / 2^64⌋ = 0`: an
inviter holding only `2` base units (far less than `10 * EXA`) succeeds, its
self-balance is left at `2`, and the stored trust capacity is
`mul_fixed(100, EXA) = 5`. -/
theorem C7_invite_charges_nothing :
    (Hub.invite_human envReg 5 2 1 50).map
      (fun e => (HubAgent.get_currency_balance e 1 1,
        HubAgent.get_trust_amount e 1 2)) = some (2, 5) ∧
    (2 : ℤ) < 10 * EXA ∧ (5 : ℤ) ≠ 100 * EXA := by
  simp only [Hub.invite_human, Hub.register_human, Hub.establish_trusts,
    mul_fixed_lit10, mul_fixed_cast50, mul_fixed_cast100]
  decide


/-- Lookup in a one-entry dict. -/
theorem alistGet_singleton {α : Type} (k : ℤ) (v : α) :
    alistGet [(k, v)] k = some v := by
  unfold alistGet
  rw [List.find?_cons_of_pos _ (by simp)]
  rfl

/-- After `establish_trusts` the ordered pair always has an edge. -/
theorem establish_trusts_mem (env : Env) (t a b v d : ℤ) :
    ∃ m td, alistGet (Hub.establish_trusts env t a b v d).trusts a = some m ∧
      alistGet m b = some td := by
  cases h1 : alistGet env.trusts a with
  | none =>
    have he : Hub.establish_trusts env t a b v d =
        { env with trusts := (alistSet env.trusts a
            [(b, ⟨t, mul_fixed ((v : ℤ) : ℚ) ((EXA : ℤ) : ℚ), d⟩)]) } := by
      unfold Hub.establish_trusts HumanEnvironment.add_trust
      simp only [h1]
    rw [he]
    exact ⟨_, _, alistGet_set_self _ _ _, alistGet_singleton _ _⟩
  | some m =>
    cases h2 : alistGet m b with
    | some td =>
      have he : Hub.establish_trusts env t a b v d = env := by
        unfold Hub.establish_trusts HumanEnvironment.add_trust
        simp only [h1, h2]
      rw [he]
      exact ⟨m, td, h1, h2⟩
    | none =>
      have he : Hub.establish_trusts env t a b v d =
          { env with trusts := (alistSet env.trusts a
              (alistSet m b ⟨t, mul_fixed ((v : ℤ) : ℚ) ((EXA : ℤ) : ℚ), d⟩)) } := by
        unfold Hub.establish_trusts HumanEnvironment.add_trust
        simp only [h1, h2]
      rw [he]
      exact ⟨_, _, alistGet_set_self _ _ _, alistGet_set_self _ _ _⟩

/-- C9: `establish_trusts` is an idempotent, first-write-wins insert: when the
ordered pair `(a, b)` already has an edge, a later call with the same or
different time, value and duration is a silent no-op, so the first-established
edge's `created_at`, `amount` and `duration` survive unchanged. -/
theorem C9_establish_trust_first_write_wins (env : Env)
    (t1 t2 a b v1 v2 d1 d2 : ℤ)
    (m : List (ℤ × TrustData)) (td : TrustData)
    (h1 : alistGet env.trusts a = some m) (h2 : alistGet m b = some td) :
    Hub.establish_trusts env t2 a b v2 d2 = env ∧
    Hub.establish_trusts (Hub.establish_trusts env t1 a b v1 d1) t2 a b v2 d2 =
      Hub.establish_trusts env t1 a b v1 d1 := by
  have key : ∀ (env' : Env) (mm : List (ℤ × TrustData)) (tdd : TrustData)
      (t v d : ℤ), alistGet env'.trusts a = some mm → alistGet mm b = some tdd →
      Hub.establish_trusts env' t a b v d = env' := by
    intro env' mm tdd t v d ha hb
    unfold Hub.establish_trusts HumanEnvironment.add_trust
    simp only [ha, hb]
  refine ⟨key env m td t2 v2 d2 h1 h2, ?_⟩
  obtain ⟨m2, td2, ha, hb⟩ := establish_trusts_mem env t1 a b v1 d1
  exact key _ m2 td2 t2 v2 d2 ha hb

/-- C9 witnessed at a concrete state: the edge `2 → 1` of `envT` survives a
re-establishment with different parameters, both directly and after a first
explicit `establish_trusts` call on the pair. -/
theorem C9_establish_trust_witness :
    Hub.establish_trusts envT 7 2 1 9 9 = envT ∧
    Hub.establish_trusts (Hub.establish_trusts envT 3 2 1 8 8) 7 2 1 9 9 =
      Hub.establish_trusts envT 3 2 1 8 8 :=
  C9_establish_trust_first_write_wins envT 3 7 2 1 8 9 8 9
    [(1, ⟨0, 50, 1000⟩)] ⟨0, 50, 1000⟩ (by decide) (by decide)

/-- A returned issuance is never negative: the `issuance < 0` branch raises
(`NameError` on the debug print) instead of returning. -/
theorem calculate_issuance_nonneg (mt : List ℤ) (ct i ps pe : ℤ)
    (h : calculate_issuance mt ct = some (i, ps, pe)) : 0 ≤ i := by
  unfold calculate_issuance at h
  cases mt with
  | nil => exact absurd h (by simp)
  | cons t0 rest =>
    dsimp only at h
    split at h
    · exact absurd h (by simp)
    · split at h
      · exact absurd h (by simp)
      · split at h
        · exact absurd h (by simp)
        · rename_i hneg
          simp only [Option.some.injEq, Prod.mk.injEq] at h
          omega

/-- C5: whenever `calculate_issuance` returns a value `i ≤ 0` (which the code
makes possible only with `i = 0`, because a negative issuance raises inside
`calculate_issuance` before returning), `Hub.mint` returns the
nothing-to-claim result `None` and the state is completely unchanged — a
valid, non-error outcome. -/
theorem C5_mint_nonpositive_no_mutation (env : Env)
    (human_id current_time i ps pe : ℤ)
    (ms : List (ℤ × MintEntry)) (s : List (ℤ × ℤ))
    (hm : alistGet env.mints human_id = some ms)
    (hs : alistGet env.supply human_id = some s)
    (hc : calculate_issuance (ms.map Prod.fst) current_time = some (i, ps, pe))
    (hle : i ≤ 0) :
    Hub.mint env human_id current_time = some (none, env) := by
  have hge := calculate_issuance_nonneg _ _ _ _ _ hc
  have hi : i = 0 := le_antisymm hle hge
  subst hi
  unfold Hub.mint
  simp only [hm, hs, hc]
  simp

/-- The issuance of an account that registered at time `0` and mints again at
time `0` is exactly `0` (with degenerate claimable bounds `(0, 0)`). -/
theorem demurrage_T_zero : Demurrage.T 0 = ((24 * 2 ^ 64 : ℤ) : ℚ) := by
  norm_num [Demurrage.T, roundHE, from_int]

theorem demurrage_R_zero : Demurrage.R 0 = ((2 ^ 64 : ℤ) : ℚ) := by
  norm_num [Demurrage.R, roundHE, from_int]

theorem calculate_issuance_at_zero : calculate_issuance [0] 0 = some (0, 0, 0) := by
  have hd0 : Demurrage.day_since_day0 0 = 0 := by decide
  have hmax2 : ((0 : ℤ) - MAX_CLAIM_DURATION) ⊔ 0 = 0 := by decide
  have hA : add_fixed (((mul_fixed (Demurrage.R 0)
        (from_int ((((0 : ℤ)) : ℚ) - (((0 : ℤ)) : ℚ) * 24)) : ℤ) : ℚ))
      (from_int (((((0 : ℤ)) : ℚ) + 1) * 24 - (((0 : ℤ)) : ℚ))) =
      some (24 * 2 ^ 64) := by
    norm_num [demurrage_R_zero, from_int, mul_fixed, truncInt, add_fixed,
      MIN_64x64, MAX_64x64]
  have hS : sub_fixed (Demurrage.T 0) (24 * 2 ^ 64) = some 0 := by
    norm_num [demurrage_T_zero, sub_fixed, MIN_64x64, MAX_64x64]
  unfold calculate_issuance
  dsimp only [List.foldl_nil]
  rw [hmax2, hd0, sub_zero, hA]
  dsimp only []
  rw [hS]
  dsimp only []
  norm_num [from_int, mul_fixed, truncInt, EXA]

/-- C5 witnessed on the registered account of `envReg` minting at time `0`:
the issuance is `0` and `mint` returns `None` leaving the state unchanged. -/
theorem C5_mint_witness :
    calculate_issuance [0] 0 = some (0, 0, 0) ∧
    Hub.mint envReg 1 0 = some (none, envReg) := by
  refine ⟨calculate_issuance_at_zero, ?_⟩
  exact C5_mint_nonpositive_no_mutation envReg 1 0 0 0 0
    [(0, ⟨0, 50 * EXA⟩)] [(0, 2)] (by decide) (by decide)
    (by simpa using calculate_issuance_at_zero) le_rfl

/-- Full description of a non-raising `update_balance` call. -/
theorem update_balance_spec (env : Env) (t id c : ℤ)
    (m : List (ℤ × List (ℤ × ℤ))) (ts : List (ℤ × ℤ))
    (h1 : alistGet env.balance id = some m) (h2 : alistGet m id = some ts)
    (h3 : ts ≠ []) :
    HumanEnvironment.update_balance env t id c =
      some (latest ts + c,
        if 0 < latest ts + c then
          { env with balance := (alistSet env.balance id
              (alistSet m id (alistSet ts t (latest ts + c)))) }
        else env) := by
  unfold HumanEnvironment.update_balance
  simp only [h1, h2]
  cases ts with
  | nil => exact absurd rfl h3
  | cons a l =>
    by_cases h : 0 < latest (a :: l) + c
    · rw [if_pos h, if_pos h]
    · rw [if_neg h, if_neg h]

/-- A seeded `update_supply` call succeeds and only touches the supply entry
of its own account. -/
theorem update_supply_spec (env : Env) (id t : ℤ) (ss : List (ℤ × ℤ))
    (h : alistGet env.supply id = some ss) (hne : ss ≠ []) :
    ∃ v env', Hub.update_supply env id t = some (v, env') ∧
      env'.balance = env.balance ∧ env'.trusts = env.trusts ∧
      env'.mints = env.mints ∧
      ∀ j, ¬ j = id → alistGet env'.supply j = alistGet env.supply j := by
  unfold Hub.update_supply
  simp only [h]
  cases ss with
  | nil => exact absurd rfl hne
  | cons a l =>
    split_ifs with hd
    · exact ⟨_, _, rfl, rfl, rfl, rfl, fun j hj => alistGet_set_ne _ _ _ _ hj⟩
    · exact ⟨_, _, rfl, rfl, rfl, rfl, fun j _ => rfl⟩

/-- C3 counterexample: in `envT`, account `1` holds exactly `10` and transfers
`10` to `2` (capacity `50`, unexpired).  The transfer succeeds and returns the
debited/credited pair `(0, 13)`, but the claim's "S is debited a" fails: the
zero result is not recorded, so `1`'s recorded self-balance stays `10`. -/
theorem C3_transfer_zero_debit_not_recorded :
    (Hub.transfer envT 1 2 10 1).map (fun res =>
      (res.1, res.2.1, HubAgent.get_currency_balance res.2.2 1 1,
        HubAgent.get_currency_balance res.2.2 2 2)) = some (0, 13, 10, 13) ∧
    (10 : ℤ) ≠ 10 - 10 := by
  exact ⟨by decide, by decide⟩


/-- C3 amended: with both accounts fully seeded and the call time no earlier
than either self-balance history, `Hub.transfer` fails exactly when the
sender equals the receiver, or the sender's current self-balance is below the
amount, or the receiver has no trust edge to the sender, or that edge's
capacity is below the amount, or the edge is expired
(`t > created_at + duration`); failure returns before any mutation.  On
success the returned values are `sender_balance - amount` and
`receiver_balance + amount`, trusts and mints are untouched, and each
debit/credit is recorded in the ledger only when the resulting balance is
strictly positive: a sender left with exactly `0` keeps its previous recorded
self-balance. -/
theorem C3_amended_transfer (env : Env) (s r a t : ℤ)
    (mS : List (ℤ × List (ℤ × ℤ))) (tsS : List (ℤ × ℤ))
    (mR : List (ℤ × List (ℤ × ℤ))) (tsR : List (ℤ × ℤ))
    (sS sR : List (ℤ × ℤ))
    (hbS : alistGet env.balance s = some mS) (hsS : alistGet mS s = some tsS)
    (hneS : tsS ≠ [])
    (hbR : alistGet env.balance r = some mR) (hsR : alistGet mR r = some tsR)
    (hneR : tsR ≠ [])
    (hsupS : alistGet env.supply s = some sS) (hneSS : sS ≠ [])
    (hsupR : alistGet env.supply r = some sR) (hneSR : sR ≠ [])
    (hkS : keyBound tsS t) (hkR : keyBound tsR t) :
    (Hub.transfer env s r a t = none ↔
      s = r ∨ latest tsS < a ∨
        (alistGet env.trusts r).bind (fun tr => alistGet tr s) = none ∨
        (∃ td, (alistGet env.trusts r).bind (fun tr => alistGet tr s) = some td ∧
          (td.amount < a ∨ td.created_at + td.duration < t))) ∧
    (∀ nsb nrb env4, Hub.transfer env s r a t = some (nsb, nrb, env4) →
      nsb = latest tsS - a ∧ nrb = latest tsR + a ∧
      env4.trusts = env.trusts ∧ env4.mints = env.mints ∧
      (0 < nsb → HubAgent.get_currency_balance env4 s s = nsb) ∧
      (nsb = 0 → HubAgent.get_currency_balance env4 s s = latest tsS) ∧
      (0 < nrb → HubAgent.get_currency_balance env4 r r = nrb)) := by
  have key : (Hub.transfer env s r a t = none ∧
      (s = r ∨ latest tsS < a ∨
        (alistGet env.trusts r).bind (fun tr => alistGet tr s) = none ∨
        (∃ td, (alistGet env.trusts r).bind (fun tr => alistGet tr s) = some td ∧
          (td.amount < a ∨ td.created_at + td.duration < t)))) ∨
      (¬ (s = r ∨ latest tsS < a ∨
        (alistGet env.trusts r).bind (fun tr => alistGet tr s) = none ∨
        (∃ td, (alistGet env.trusts r).bind (fun tr => alistGet tr s) = some td ∧
          (td.amount < a ∨ td.created_at + td.duration < t))) ∧
       ∃ env4, Hub.transfer env s r a t =
          some (latest tsS - a, latest tsR + a, env4) ∧
        env4.trusts = env.trusts ∧ env4.mints = env.mints ∧
        (0 < latest tsS - a →
          HubAgent.get_currency_balance env4 s s = latest tsS - a) ∧
        (latest tsS - a = 0 →
          HubAgent.get_currency_balance env4 s s = latest tsS) ∧
        (0 < latest tsR + a →
          HubAgent.get_currency_balance env4 r r = latest tsR + a)) := by
    by_cases h1 : s = r
    · exact Or.inl ⟨by unfold Hub.transfer; rw [if_pos h1], Or.inl h1⟩
    · have hrs : ¬ r = s := fun hh => h1 hh.symm
      have hunf : Hub.transfer env s r a t =
          (if latest tsS < a then none
           else
             match alistGet env.trusts r with
             | none => none
             | some tr =>
               match alistGet tr s with
               | none => none
               | some td =>
                 if td.amount < a then none
                 else if td.created_at + td.duration < t then none
                 else
                   match HumanEnvironment.update_balance env t s (-a) with
                   | none => none
                   | some (nsb, env1) =>
                     match HumanEnvironment.update_balance env1 t r a with
                     | none => none
                     | some (nrb, env2) =>
                       match Hub.update_supply env2 s t with
                       | none => none
                       | some (_, env3) =>
                         match Hub.update_supply env3 r t with
                         | none => none
                         | some (_, env4) => some (nsb, nrb, env4)) := by
        unfold Hub.transfer
        rw [if_neg h1]
        simp only [hbS, hsS]
        cases tsS with
        | nil => exact absurd rfl hneS
        | cons x xs => rfl
      by_cases h2 : latest tsS < a
      · exact Or.inl ⟨by rw [hunf, if_pos h2], Or.inr (Or.inl h2)⟩
      · cases hTr : alistGet env.trusts r with
        | none =>
          refine Or.inl ⟨?_, Or.inr (Or.inr (Or.inl ?_))⟩
          · rw [hunf, if_neg h2]
            simp only [hTr]
          · rfl
        | some tr =>
          cases hTd : alistGet tr s with
          | none =>
            refine Or.inl ⟨?_, Or.inr (Or.inr (Or.inl ?_))⟩
            · rw [hunf, if_neg h2]
              simp only [hTr, hTd]
            · simp [hTd]
          | some td =>
            by_cases h3 : td.amount < a
            · refine Or.inl ⟨?_, Or.inr (Or.inr (Or.inr
                ⟨td, by simp [hTd], Or.inl h3⟩))⟩
              rw [hunf, if_neg h2]
              simp only [hTr, hTd]
              rw [if_pos h3]
            · by_cases h4 : td.created_at + td.duration < t
              · refine Or.inl ⟨?_, Or.inr (Or.inr (Or.inr
                  ⟨td, by simp [hTd], Or.inr h4⟩))⟩
                rw [hunf, if_neg h2]
                simp only [hTr, hTd]
                rw [if_neg h3, if_pos h4]
              · refine Or.inr ⟨?_, ?_⟩
                · rintro (hc | hc | hc | ⟨td', htd', hc⟩)
                  · exact h1 hc
                  · exact h2 hc
                  · simp [hTd] at hc
                  · simp only [Option.some_bind, hTd, Option.some.injEq] at htd'
                    subst htd'
                    rcases hc with hc | hc
                    · exact h3 hc
                    · exact h4 hc
                · -- success: evaluate the two balance updates and the two
                  -- supply refreshes
                  have hub1 := update_balance_spec env t s (-a) mS tsS hbS hsS hneS
                  rw [show latest tsS + -a = latest tsS - a from
                    (sub_eq_add_neg _ _).symm] at hub1
                  set env1 : Env := (if 0 < latest tsS - a then
                    { env with balance := (alistSet env.balance s
                        (alistSet mS s (alistSet tsS t (latest tsS - a)))) }
                    else env) with henv1
                  have f1 : alistGet env1.balance r = some mR := by
                    rw [henv1]
                    split_ifs
                    · rw [show ({ env with balance := (alistSet env.balance s
                          (alistSet mS s (alistSet tsS t (latest tsS - a)))) } :
                          Env).balance = alistSet env.balance s
                          (alistSet mS s (alistSet tsS t (latest tsS - a)))
                        from rfl]
                      rw [alistGet_set_ne _ _ _ _ hrs]
                      exact hbR
                    · exact hbR
                  have hub2 := update_balance_spec env1 t r a mR tsR f1 hsR hneR
                  set env2 : Env := (if 0 < latest tsR + a then
                    { env1 with balance := (alistSet env1.balance r
                        (alistSet mR r (alistSet tsR t (latest tsR + a)))) }
                    else env1) with henv2
                  have f2sup : env2.supply = env.supply := by
                    rw [henv2, henv1]
                    split_ifs <;> rfl
                  have f2tr : env2.trusts = env.trusts := by
                    rw [henv2, henv1]
                    split_ifs <;> rfl
                  have f2mi : env2.mints = env.mints := by
                    rw [henv2, henv1]
                    split_ifs <;> rfl
                  have hsupS2 : alistGet env2.supply s = some sS := by
                    rw [f2sup]; exact hsupS
                  obtain ⟨v3, env3, hus3, hb3, ht3, hm3, ho3⟩ :=
                    update_supply_spec env2 s t sS hsupS2 hneSS
                  have hsupR3 : alistGet env3.supply r = some sR := by
                    rw [ho3 r hrs, f2sup]; exact hsupR
                  obtain ⟨v4, env4, hus4, hb4, ht4, hm4, ho4⟩ :=
                    update_supply_spec env3 r t sR hsupR3 hneSR
                  have hbal4 : env4.balance = env2.balance := by rw [hb4, hb3]
                  have hfinal : Hub.transfer env s r a t =
                      some (latest tsS - a, latest tsR + a, env4) := by
                    rw [hunf, if_neg h2]
                    simp only [hTr, hTd]
                    rw [if_neg h3, if_neg h4, hub1]
                    dsimp only []
                    rw [hub2]
                    dsimp only []
                    rw [hus3]
                    dsimp only []
                    rw [hus4]
                  refine ⟨env4, hfinal, by rw [ht4, ht3, f2tr],
                    by rw [hm4, hm3, f2mi], ?_, ?_, ?_⟩
                  · -- positive sender result: recorded
                    intro h5
                    have henv1p : env1.balance = alistSet env.balance s
                        (alistSet mS s (alistSet tsS t (latest tsS - a))) := by
                      rw [henv1, if_pos h5]
                    have l1 : alistGet env2.balance s =
                        some (alistSet mS s (alistSet tsS t (latest tsS - a))) := by
                      rw [henv2]
                      split_ifs
                      · rw [show ({ env1 with balance := (alistSet env1.balance r
                            (alistSet mR r (alistSet tsR t (latest tsR + a)))) } :
                            Env).balance = alistSet env1.balance r
                            (alistSet mR r (alistSet tsR t (latest tsR + a)))
                          from rfl]
                        rw [alistGet_set_ne _ _ _ _ h1, henv1p]
                        exact alistGet_set_self _ _ _
                      · rw [henv1p]
                        exact alistGet_set_self _ _ _
                    rw [get_currency_balance_eq env4 s s _ _ (by rw [hbal4]; exact l1)
                      (alistGet_set_self _ _ _) (alistSet_ne_nil _ _ _)]
                    exact latest_set _ _ _ hkS
                  · -- zero sender result: not recorded
                    intro h50
                    have h5 : ¬ 0 < latest tsS - a := by omega
                    have henv1z : env1.balance = env.balance := by
                      rw [henv1, if_neg h5]
                    have l1 : alistGet env2.balance s = some mS := by
                      rw [henv2]
                      split_ifs
                      · rw [show ({ env1 with balance := (alistSet env1.balance r
                            (alistSet mR r (alistSet tsR t (latest tsR + a)))) } :
                            Env).balance = alistSet env1.balance r
                            (alistSet mR r (alistSet tsR t (latest tsR + a)))
                          from rfl]
                        rw [alistGet_set_ne _ _ _ _ h1, henv1z]
                        exact hbS
                      · rw [henv1z]
                        exact hbS
                    rw [get_currency_balance_eq env4 s s _ _ (by rw [hbal4]; exact l1)
                      hsS hneS]
                  · -- positive receiver result: recorded
                    intro h6
                    have l1 : alistGet env2.balance r =
                        some (alistSet mR r (alistSet tsR t (latest tsR + a))) := by
                      rw [henv2, if_pos h6]
                      rw [show ({ env1 with balance := (alistSet env1.balance r
                          (alistSet mR r (alistSet tsR t (latest tsR + a)))) } :
                          Env).balance = alistSet env1.balance r
                          (alistSet mR r (alistSet tsR t (latest tsR + a)))
                        from rfl]
                      exact alistGet_set_self _ _ _
                    rw [get_currency_balance_eq env4 r r _ _ (by rw [hbal4]; exact l1)
                      (alistGet_set_self _ _ _) (alistSet_ne_nil _ _ _)]
                    exact latest_set _ _ _ hkR
  rcases key with ⟨hnone, hcond⟩ | ⟨hnc, env4, hsome, ht4, hm4, hp1, hp0, hp2⟩
  · constructor
    · exact iff_of_true hnone hcond
    · intro nsb nrb e4 hsm
      rw [hnone] at hsm
      exact absurd hsm (by simp)
  · constructor
    · constructor
      · intro h0
        rw [hsome] at h0
        exact absurd h0 (by simp)
      · intro hc
        exact absurd hc hnc
    · intro nsb nrb e4 hsm
      rw [hsome] at hsm
      simp only [Option.some.injEq, Prod.mk.injEq] at hsm
      obtain ⟨e1, e2, e3⟩ := hsm
      subst e1
      subst e2
      subst e3
      exact ⟨rfl, rfl, ht4, hm4, hp1, hp0, hp2⟩

/-- C3 amended, witnessed: in `envT` a transfer of `4` from `1` to `2`
succeeds, returns `(6, 7)`, and records the sender's new balance `6`. -/
theorem C3_amended_transfer_witness :
    ∃ nsb nrb env4, Hub.transfer envT 1 2 4 1 = some (nsb, nrb, env4) ∧
      nsb = 6 ∧ nrb = 7 ∧ HubAgent.get_currency_balance env4 1 1 = 6 := by
  have H := C3_amended_transfer envT 1 2 4 1 [(1, [(0, 10)])] [(0, 10)]
    [(2, [(0, 3)])] [(0, 3)] [(0, 10)] [(0, 3)]
    (by decide) (by decide) (by decide) (by decide) (by decide) (by decide)
    (by decide) (by decide) (by decide) (by decide)
    (by unfold keyBound; decide) (by unfold keyBound; decide)
  cases h : Hub.transfer envT 1 2 4 1 with
  | none =>
    have hc := H.1.mp h
    rcases hc with hc | hc | hc | ⟨td, htd, hc⟩
    · exact absurd hc (by decide)
    · exact absurd hc (by decide)
    · exact absurd hc (by decide)
    · have h50 : ((alistGet envT.trusts 2).bind fun tr => alistGet tr 1) =
          some (⟨0, 50, 1000⟩ : TrustData) := by decide
      rw [h50] at htd
      have htd2 : (⟨0, 50, 1000⟩ : TrustData) = td := Option.some.inj htd
      rw [← htd2] at hc
      rcases hc with hc | hc
      · exact absurd hc (by decide)
      · exact absurd hc (by decide)
  | some res =>
    obtain ⟨nsb, nrb, env4⟩ := res
    have H2 := H.2 nsb nrb env4 h
    have hl1 : latest [(0, 10)] = 10 := by decide
    have hl2 : latest [(0, 3)] = 3 := by decide
    rw [hl1] at H2
    rw [hl2] at H2
    obtain ⟨e1, e2, _, _, hp, _, _⟩ := H2
    refine ⟨nsb, nrb, env4, rfl, by omega, by omega, ?_⟩
    have : nsb = 6 := by omega
    rw [hp (by omega), this]


/-- The reported path maximum never exceeds the running start value. -/
theorem get_max_aux_le (env : Env) (amount : ℤ) :
    ∀ (p : List ℤ) (m : ℤ), PathFinder.get_max_aux env amount m p ≤ m := by
  intro p
  induction p with
  | nil => intro m; exact le_rfl
  | cons p0 tail ih =>
    intro m
    cases tail with
    | nil => exact le_rfl
    | cons p1 rest =>
      simp only [PathFinder.get_max_aux]
      split_ifs with h
      · exact le_trans (min_le_left _ _) (min_le_left _ _)
      · exact le_trans (ih _) (le_trans (min_le_left _ _) (min_le_left _ _))

/-- The reported path maximum is capped at the requested amount. -/
theorem get_max_le (env : Env) (amount : ℤ) (p : List ℤ) :
    PathFinder.get_max_transfer_amount env p amount ≤ amount :=
  get_max_aux_le env amount p amount

/-- Invariant of the selection fold of `find_optimal_transfer_path`: it finds
a shortest sufficient path when one exists, otherwise tracks the largest
reported maximum, accepting a path only when that maximum is positive. -/
theorem find_optimal_aux_invariant (env : Env) (amount : ℤ) (hamt : 0 < amount) :
    ∀ (l : List (List ℤ)) (opt : Option (List ℤ)) (mt : ℤ),
    (opt = none → mt = 0) →
    (∀ q, opt = some q → PathFinder.get_max_transfer_amount env q amount = mt) →
    0 ≤ mt → mt ≤ amount →
    (((∃ p ∈ l, amount ≤ PathFinder.get_max_transfer_amount env p amount) ∨
      (∃ q, opt = some q ∧
        amount ≤ PathFinder.get_max_transfer_amount env q amount)) →
      ∃ q, (PathFinder.find_optimal_aux env amount l (opt, mt)).1 = some q ∧
        amount ≤ PathFinder.get_max_transfer_amount env q amount ∧
        (∀ p ∈ l, amount ≤ PathFinder.get_max_transfer_amount env p amount →
          q.length ≤ p.length) ∧
        (∀ q0, opt = some q0 →
          amount ≤ PathFinder.get_max_transfer_amount env q0 amount →
          q.length ≤ q0.length)) ∧
    ((∀ p ∈ l, PathFinder.get_max_transfer_amount env p amount ≤
        (PathFinder.find_optimal_aux env amount l (opt, mt)).2) ∧
      mt ≤ (PathFinder.find_optimal_aux env amount l (opt, mt)).2) ∧
    (∀ q, (PathFinder.find_optimal_aux env amount l (opt, mt)).1 = some q →
      PathFinder.get_max_transfer_amount env q amount =
        (PathFinder.find_optimal_aux env amount l (opt, mt)).2 ∧
      (q ∈ l ∨ opt = some q)) ∧
    ((PathFinder.find_optimal_aux env amount l (opt, mt)).1 = none →
      opt = none ∧ (PathFinder.find_optimal_aux env amount l (opt, mt)).2 = mt) ∧
    ((∀ p ∈ l, PathFinder.get_max_transfer_amount env p amount ≤ 0) →
      PathFinder.find_optimal_aux env amount l (opt, mt) = (opt, mt)) := by
  intro l
  induction l with
  | nil =>
    intro opt mt hnone hopt h0 hA
    refine ⟨?_, ⟨?_, le_rfl⟩, ?_, ?_, ?_⟩
    · rintro (⟨p, hp, _⟩ | ⟨q, hq, hsq⟩)
      · exact absurd hp (List.not_mem_nil p)
      · refine ⟨q, hq, hsq, fun p hp _ => absurd hp (List.not_mem_nil p),
          fun q0 hq0 _ => ?_⟩
        rw [hq] at hq0
        rw [Option.some.inj hq0]
    · intro p hp
      exact absurd hp (List.not_mem_nil p)
    · intro q hq
      exact ⟨hopt q hq, Or.inr hq⟩
    · intro h
      exact ⟨h, rfl⟩
    · intro _
      rfl
  | cons p rest ih =>
    intro opt mt hnone hopt h0 hA
    have hgle : PathFinder.get_max_transfer_amount env p amount ≤ amount :=
      get_max_le env amount p
    simp only [PathFinder.find_optimal_aux]
    split_ifs with hc1 hc2
    · -- the path is sufficient and (no optimum is held or it is shorter)
      have hsp0 : 0 ≤ PathFinder.get_max_transfer_amount env p amount :=
        le_trans (le_of_lt hamt) hc1.1
      obtain ⟨IH1, ⟨IH2a, IH2b⟩, IH3, IH4, IH5⟩ :=
        ih (some p) (PathFinder.get_max_transfer_amount env p amount)
          (fun h => by exact absurd h (by simp))
          (fun q hq => by rw [← Option.some.inj hq]) hsp0 hgle
      refine ⟨?_, ⟨?_, ?_⟩, ?_, ?_, ?_⟩
      · intro _
        obtain ⟨q, hres, hsq, hminr, hmino⟩ := IH1 (Or.inr ⟨p, rfl, hc1.1⟩)
        refine ⟨q, hres, hsq, ?_, ?_⟩
        · intro p' hp' hsp'
          rcases List.mem_cons.mp hp' with h | h
          · rw [h]
            exact hmino p rfl hc1.1
          · exact hminr p' h hsp'
        · intro q0 hq0 hsq0
          subst hq0
          have h2 := hc1.2
          simp only [decide_eq_true_eq] at h2
          exact le_trans (hmino p rfl hc1.1) (le_of_lt h2)
      · intro p' hp'
        rcases List.mem_cons.mp hp' with h | h
        · rw [h]
          exact IH2b
        · exact IH2a p' h
      · exact le_trans hA (le_trans hc1.1 IH2b)
      · intro q hq
        obtain ⟨heq, hmem⟩ := IH3 q hq
        refine ⟨heq, Or.inl ?_⟩
        rcases hmem with h | h
        · exact List.mem_cons_of_mem p h
        · rw [← Option.some.inj h]
          exact List.mem_cons_self p rest
      · intro hq
        obtain ⟨hcontra, _⟩ := IH4 hq
        exact absurd hcontra (by simp)
      · intro hall
        have h5 := hall p (List.mem_cons_self p rest)
        have h6 := hc1.1
        omega
    · -- the path improves on the held maximum
      have hsp0 : 0 ≤ PathFinder.get_max_transfer_amount env p amount :=
        le_trans h0 (le_of_lt hc2)
      obtain ⟨IH1, ⟨IH2a, IH2b⟩, IH3, IH4, IH5⟩ :=
        ih (some p) (PathFinder.get_max_transfer_amount env p amount)
          (fun h => by exact absurd h (by simp))
          (fun q hq => by rw [← Option.some.inj hq]) hsp0 hgle
      refine ⟨?_, ⟨?_, ?_⟩, ?_, ?_, ?_⟩
      · intro hyp
        by_cases hsp : amount ≤ PathFinder.get_max_transfer_amount env p amount
        · obtain ⟨q, hres, hsq, hminr, hmino⟩ := IH1 (Or.inr ⟨p, rfl, hsp⟩)
          refine ⟨q, hres, hsq, ?_, ?_⟩
          · intro p' hp' hsp'
            rcases List.mem_cons.mp hp' with h | h
            · rw [h]
              exact hmino p rfl hsp
            · exact hminr p' h hsp'
          · intro q0 hq0 hsq0
            have h7 := hopt q0 hq0
            omega
        · rcases hyp with ⟨p', hp', hsp'⟩ | ⟨q0, hq0, hsq0⟩
          · rcases List.mem_cons.mp hp' with h | h
            · rw [h] at hsp'
              exact absurd hsp' hsp
            · obtain ⟨q, hres, hsq, hminr, hmino⟩ := IH1 (Or.inl ⟨p', h, hsp'⟩)
              refine ⟨q, hres, hsq, ?_, ?_⟩
              · intro p'' hp'' hsp''
                rcases List.mem_cons.mp hp'' with h2 | h2
                · rw [h2] at hsp''
                  exact absurd hsp'' hsp
                · exact hminr p'' h2 hsp''
              · intro q0 hq0 hsq0
                have h7 := hopt q0 hq0
                omega
          · have h7 := hopt q0 hq0
            omega
      · intro p' hp'
        rcases List.mem_cons.mp hp' with h | h
        · rw [h]
          exact IH2b
        · exact IH2a p' h
      · exact le_trans (le_of_lt hc2) IH2b
      · intro q hq
        obtain ⟨heq, hmem⟩ := IH3 q hq
        refine ⟨heq, Or.inl ?_⟩
        rcases hmem with h | h
        · exact List.mem_cons_of_mem p h
        · rw [← Option.some.inj h]
          exact List.mem_cons_self p rest
      · intro hq
        obtain ⟨hcontra, _⟩ := IH4 hq
        exact absurd hcontra (by simp)
      · intro hall
        have h5 := hall p (List.mem_cons_self p rest)
        omega
    · -- the path is rejected
      obtain ⟨IH1, ⟨IH2a, IH2b⟩, IH3, IH4, IH5⟩ := ih opt mt hnone hopt h0 hA
      have hplemt : PathFinder.get_max_transfer_amount env p amount ≤ mt := by
        omega
      refine ⟨?_, ⟨?_, ?_⟩, ?_, ?_, ?_⟩
      · intro hyp
        by_cases hsp : amount ≤ PathFinder.get_max_transfer_amount env p amount
        · cases opt with
          | none =>
            have h5 := hnone rfl
            omega
          | some q0 =>
            have hq0mt := hopt q0 rfl
            have hsq0 : amount ≤
                PathFinder.get_max_transfer_amount env q0 amount := by omega
            obtain ⟨q, hres, hsq, hminr, hmino⟩ :=
              IH1 (Or.inr ⟨q0, rfl, hsq0⟩)
            have hlen : q0.length ≤ p.length := by
              simp only [decide_eq_true_eq] at hc1
              omega
            refine ⟨q, hres, hsq, ?_, hmino⟩
            intro p' hp' hsp'
            rcases List.mem_cons.mp hp' with h | h
            · rw [h]
              exact le_trans (hmino q0 rfl hsq0) hlen
            · exact hminr p' h hsp'
        · rcases hyp with ⟨p', hp', hsp'⟩ | ⟨q0, hq0, hsq0⟩
          · rcases List.mem_cons.mp hp' with h | h
            · rw [h] at hsp'
              exact absurd hsp' hsp
            · obtain ⟨q, hres, hsq, hminr, hmino⟩ := IH1 (Or.inl ⟨p', h, hsp'⟩)
              refine ⟨q, hres, hsq, ?_, hmino⟩
              intro p'' hp'' hsp''
              rcases List.mem_cons.mp hp'' with h2 | h2
              · rw [h2] at hsp''
                exact absurd hsp'' hsp
              · exact hminr p'' h2 hsp''
          · obtain ⟨q, hres, hsq, hminr, hmino⟩ := IH1 (Or.inr ⟨q0, hq0, hsq0⟩)
            refine ⟨q, hres, hsq, ?_, hmino⟩
            intro p'' hp'' hsp''
            rcases List.mem_cons.mp hp'' with h2 | h2
            · rw [h2] at hsp''
              exact absurd hsp'' hsp
            · exact hminr p'' h2 hsp''
      · intro p' hp'
        rcases List.mem_cons.mp hp' with h | h
        · rw [h]
          exact le_trans hplemt IH2b
        · exact IH2a p' h
      · exact IH2b
      · intro q hq
        obtain ⟨heq, hmem⟩ := IH3 q hq
        refine ⟨heq, ?_⟩
        rcases hmem with h | h
        · exact Or.inl (List.mem_cons_of_mem p h)
        · exact Or.inr h
      · exact IH4
      · intro hall
        exact IH5 (fun p' hp' => hall p' (List.mem_cons_of_mem p hp'))

/-- C4 counterexample: for the route scenario, both candidate routes exist,
neither satisfies the requested amount `10` under the claim's own
`max_transferable` (the minimum over ALL hops, capped at the amount), yet
the code returns route `[0, 1, 3]` whose true minimum is `3`, not the route
`[0, 2, 3]` with the largest true minimum `4` — the short-circuited hop scan
reports `5` for the first route and stops comparing too early. -/
theorem C4_fallback_not_largest_true_max :
    PathFinder.find_transfer_paths edgesRoute 3 0 = [[0, 1, 3], [0, 2, 3]] ∧
    PathFinder.find_optimal_transfer_path envRoute edgesRoute 3 0 10 =
      (some [0, 1, 3], 5) ∧
    pathMaxSpec envRoute 10 [0, 1, 3] = 3 ∧
    pathMaxSpec envRoute 10 [0, 2, 3] = 4 ∧
    (∀ p ∈ PathFinder.find_transfer_paths edgesRoute 3 0,
      pathMaxSpec envRoute 10 p < 10) := by
  decide

/-- C4 amended: among the enumerated simple paths of at most 5 hops from
receiver to sender, each path is scored by the short-circuited running
minimum of hop trust capacity and paying node's balance (capped at the
amount, stopping once it drops below the amount).  For a positive requested
amount, the code returns a shortest path whose score covers the amount when
one exists; otherwise it returns a path maximizing the reported score
provided some score is positive (the reported score of a short-circuited
path can exceed its true bottleneck), and returns no path at all when every
reported score is nonpositive. -/
theorem C4_amended_route_selection (env : Env) (edges : List (ℤ × ℤ))
    (source target amount : ℤ) (hamt : 0 < amount) :
    ((∃ p ∈ PathFinder.find_transfer_paths edges source target,
        amount ≤ PathFinder.get_max_transfer_amount env p amount) →
      ∃ q, q ∈ PathFinder.find_transfer_paths edges source target ∧
        (PathFinder.find_optimal_transfer_path env edges source target
          amount).1 = some q ∧
        amount ≤ PathFinder.get_max_transfer_amount env q amount ∧
        (∀ p ∈ PathFinder.find_transfer_paths edges source target,
          amount ≤ PathFinder.get_max_transfer_amount env p amount →
          q.length ≤ p.length)) ∧
    ((∃ p ∈ PathFinder.find_transfer_paths edges source target,
        0 < PathFinder.get_max_transfer_amount env p amount) →
      ∃ q, q ∈ PathFinder.find_transfer_paths edges source target ∧
        (PathFinder.find_optimal_transfer_path env edges source target
          amount).1 = some q ∧
        PathFinder.get_max_transfer_amount env q amount =
          (PathFinder.find_optimal_transfer_path env edges source target
            amount).2 ∧
        (∀ p ∈ PathFinder.find_transfer_paths edges source target,
          PathFinder.get_max_transfer_amount env p amount ≤
            (PathFinder.find_optimal_transfer_path env edges source target
              amount).2)) ∧
    ((∀ p ∈ PathFinder.find_transfer_paths edges source target,
        PathFinder.get_max_transfer_amount env p amount ≤ 0) →
      PathFinder.find_optimal_transfer_path env edges source target amount =
        (none, 0)) := by
  have heq : PathFinder.find_optimal_transfer_path env edges source target
      amount = PathFinder.find_optimal_aux env amount
      (PathFinder.find_transfer_paths edges source target) (none, 0) := rfl
  obtain ⟨IH1, ⟨IH2a, IH2b⟩, IH3, IH4, IH5⟩ :=
    find_optimal_aux_invariant env amount hamt
      (PathFinder.find_transfer_paths edges source target) none 0
      (fun _ => rfl) (fun q hq => Option.noConfusion hq) le_rfl (le_of_lt hamt)
  refine ⟨?_, ?_, ?_⟩
  · intro hyp
    obtain ⟨q, hres, hsq, hminr, _⟩ := IH1 (Or.inl hyp)
    obtain ⟨_, hmem⟩ := IH3 q hres
    rcases hmem with h | h
    · exact ⟨q, h, by rw [heq]; exact hres, hsq, hminr⟩
    · exact Option.noConfusion h
  · rintro ⟨p, hp, hpos⟩
    cases hres : (PathFinder.find_optimal_aux env amount
        (PathFinder.find_transfer_paths edges source target) (none, 0)).1 with
    | none =>
      obtain ⟨_, h2⟩ := IH4 hres
      have := IH2a p hp
      omega
    | some q =>
      obtain ⟨heq2, hmem⟩ := IH3 q hres
      rcases hmem with h | h
      · exact ⟨q, h, by rw [heq]; exact hres, by rw [heq]; exact heq2,
          by rw [heq]; exact IH2a⟩
      · exact Option.noConfusion h
  · intro hall
    rw [heq, IH5 hall]

/-- C4 amended, witnessed on the route scenario: the request of `10` cannot
be covered, and the code returns a path from the enumeration whose reported
score equals the returned maximum. -/
theorem C4_amended_witness :
    ∃ q, q ∈ PathFinder.find_transfer_paths edgesRoute 3 0 ∧
      (PathFinder.find_optimal_transfer_path envRoute edgesRoute 3 0 10).1 =
        some q ∧
      PathFinder.get_max_transfer_amount envRoute q 10 =
        (PathFinder.find_optimal_transfer_path envRoute edgesRoute 3 0 10).2 := by
  have H := C4_amended_route_selection envRoute edgesRoute 3 0 10 (by norm_num)
  obtain ⟨q, hq1, hq2, hq3, _⟩ := H.2.1 (by decide)
  exact ⟨q, hq1, hq2, hq3⟩


/-- The latest entry of a one-entry series. -/
theorem latest_singleton (k v : ℤ) : latest [(k, v)] = v := by
  unfold latest
  rw [show maxKey [(k, v)] = k from rfl, alistGet_singleton]
  rfl

/-- Reading `get_currency_balance` on a literal environment. -/
theorem getCB_mk (b : List (ℤ × List (ℤ × List (ℤ × ℤ))))
    (su : List (ℤ × List (ℤ × ℤ))) (tru : List (ℤ × List (ℤ × TrustData)))
    (mi : List (ℤ × List (ℤ × MintEntry))) (x y : ℤ)
    (m : List (ℤ × List (ℤ × ℤ))) (ts : List (ℤ × ℤ))
    (h1 : alistGet b x = some m) (h2 : alistGet m y = some ts) (h3 : ts ≠ []) :
    HubAgent.get_currency_balance ⟨b, su, tru, mi⟩ x y = latest ts :=
  get_currency_balance_eq _ x y m ts h1 h2 h3

/-- C10: for a successful driver-level hop `(F, T)` of amount `a` at time `t`
with all intermediate ledger balances positive, the hop's state change is
applied twice: `Hub.transfer` first records `F`'s self-balance as `b - a` and
`T`'s self-balance as `b' + a`, then the loop body of `HubAgent.transfer`
overwrites the same timestamp key so that `F`'s recorded self-balance at `t`
becomes `b - 2a`, and additionally credits `a` to the `(T, F)` token entry;
consequently the sum of the two recorded self-balances after this one-hop
transfer is `b + b' - a`, not the original `b + b'`. -/
theorem C10_driver_hop_double_applies (env : Env) (F T a t : ℤ)
    (mF : List (ℤ × List (ℤ × ℤ))) (tsF : List (ℤ × ℤ))
    (mT : List (ℤ × List (ℤ × ℤ))) (tsT : List (ℤ × ℤ))
    (sF sT : List (ℤ × ℤ)) (tr : List (ℤ × TrustData)) (td : TrustData)
    (hFT : ¬ F = T)
    (hbF : alistGet env.balance F = some mF) (hsF : alistGet mF F = some tsF)
    (hneF : tsF ≠ [])
    (hbT : alistGet env.balance T = some mT) (hsT : alistGet mT T = some tsT)
    (hneT : tsT ≠ [])
    (hsupF : alistGet env.supply F = some sF) (hneSF : sF ≠ [])
    (hsupT : alistGet env.supply T = some sT) (hneST : sT ≠ [])
    (hkF : keyBound tsF t) (hkT : keyBound tsT t)
    (htr : alistGet env.trusts T = some tr) (htd : alistGet tr F = some td)
    (hcap : a ≤ td.amount) (hexp : t ≤ td.created_at + td.duration)
    (hbal : a ≤ latest tsF)
    (hpos1 : 0 < latest tsF - a) (hpos2 : 0 < latest tsT + a)
    (ha : 0 < a)
    (htok : ∀ ts2, alistGet mT F = some ts2 → keyBound ts2 t) :
    ∃ envMid env3,
      Hub.transfer env F T a t =
        some (latest tsF - a, latest tsT + a, envMid) ∧
      HubAgent.get_currency_balance envMid F F = latest tsF - a ∧
      HubAgent.get_currency_balance envMid T T = latest tsT + a ∧
      HubAgent.transfer_hop env F T a t = some env3 ∧
      HubAgent.get_currency_balance env3 F F = latest tsF - 2 * a ∧
      HubAgent.get_currency_balance env3 T T = latest tsT + a ∧
      HubAgent.get_currency_balance env3 T F =
        HubAgent.get_currency_balance env T F + a ∧
      HubAgent.get_currency_balance env3 F F +
        HubAgent.get_currency_balance env3 T T =
        latest tsF + latest tsT - a ∧
      ¬ (HubAgent.get_currency_balance env3 F F +
          HubAgent.get_currency_balance env3 T T =
          latest tsF + latest tsT) := by
  have hTF : ¬ T = F := fun hh => hFT hh.symm
  have hub1 := update_balance_spec env t F (-a) mF tsF hbF hsF hneF
  rw [show latest tsF + -a = latest tsF - a from (sub_eq_add_neg _ _).symm,
    if_pos hpos1] at hub1
  have hbT1 : alistGet ({ env with balance := (alistSet env.balance F
      (alistSet mF F (alistSet tsF t (latest tsF - a)))) } : Env).balance T =
      some mT := by
    rw [show ({ env with balance := (alistSet env.balance F
        (alistSet mF F (alistSet tsF t (latest tsF - a)))) } : Env).balance =
      alistSet env.balance F (alistSet mF F (alistSet tsF t (latest tsF - a)))
      from rfl]
    rw [alistGet_set_ne _ _ _ _ hTF]
    exact hbT
  have hub2 := update_balance_spec _ t T a mT tsT hbT1 hsT hneT
  rw [if_pos hpos2] at hub2
  obtain ⟨v3, env3s, hus3, hb3, ht3, hm3, ho3⟩ :=
    update_supply_spec ({ { env with balance := (alistSet env.balance F
      (alistSet mF F (alistSet tsF t (latest tsF - a)))) } with
      balance := (alistSet ({ env with balance := (alistSet env.balance F
        (alistSet mF F (alistSet tsF t (latest tsF - a)))) } : Env).balance T
        (alistSet mT T (alistSet tsT t (latest tsT + a)))) } : Env)
      F t sF hsupF hneSF
  have hsupT3 : alistGet env3s.supply T = some sT := by
    rw [ho3 T hTF]
    exact hsupT
  obtain ⟨v4, env4, hus4, hb4, ht4, hm4, ho4⟩ :=
    update_supply_spec env3s T t sT hsupT3 hneST
  have hbal4 : env4.balance = alistSet (alistSet env.balance F
      (alistSet mF F (alistSet tsF t (latest tsF - a)))) T
      (alistSet mT T (alistSet tsT t (latest tsT + a))) := by
    rw [hb4, hb3]
  have htr_eval : Hub.transfer env F T a t =
      some (latest tsF - a, latest tsT + a, env4) := by
    unfold Hub.transfer
    rw [if_neg hFT]
    simp only [hbF, hsF]
    cases tsF with
    | nil => exact absurd rfl hneF
    | cons x xs =>
      rw [if_neg (not_lt.mpr hbal)]
      simp only [htr, htd]
      rw [if_neg (not_lt.mpr hcap), if_neg (not_lt.mpr hexp), hub1]
      dsimp only []
      rw [hub2]
      dsimp only []
      rw [hus3]
      dsimp only []
      rw [hus4]
  have hgF4 : alistGet env4.balance F =
      some (alistSet mF F (alistSet tsF t (latest tsF - a))) := by
    rw [hbal4, alistGet_set_ne _ _ _ _ hFT]
    exact alistGet_set_self _ _ _
  have hgT4 : alistGet env4.balance T =
      some (alistSet mT T (alistSet tsT t (latest tsT + a))) := by
    rw [hbal4]
    exact alistGet_set_self _ _ _
  have hcbF4 : HubAgent.get_currency_balance env4 F F = latest tsF - a := by
    rw [get_currency_balance_eq env4 F F _ _ hgF4 (alistGet_set_self _ _ _)
      (alistSet_ne_nil _ _ _)]
    exact latest_set _ _ _ hkF
  have hcbT4 : HubAgent.get_currency_balance env4 T T = latest tsT + a := by
    rw [get_currency_balance_eq env4 T T _ _ hgT4 (alistGet_set_self _ _ _)
      (alistSet_ne_nil _ _ _)]
    exact latest_set _ _ _ hkT
  have hsF1 : alistGet (alistSet mF F (alistSet tsF t (latest tsF - a))) F =
      some (alistSet tsF t (latest tsF - a)) := alistGet_set_self _ _ _
  have hkF1 : keyBound (alistSet tsF t (latest tsF - a)) t :=
    keyBound_set _ _ _ hkF
  have hgT5 : alistGet ({ env4 with balance := (alistSet env4.balance F
      (alistSet (alistSet mF F (alistSet tsF t (latest tsF - a))) F
        (alistSet (alistSet tsF t (latest tsF - a)) t
          (latest tsF - a - a)))) } : Env).balance T =
      some (alistSet mT T (alistSet tsT t (latest tsT + a))) := by
    rw [show ({ env4 with balance := (alistSet env4.balance F
        (alistSet (alistSet mF F (alistSet tsF t (latest tsF - a))) F
          (alistSet (alistSet tsF t (latest tsF - a)) t
            (latest tsF - a - a)))) } : Env).balance =
      alistSet env4.balance F
        (alistSet (alistSet mF F (alistSet tsF t (latest tsF - a))) F
          (alistSet (alistSet tsF t (latest tsF - a)) t
            (latest tsF - a - a))) from rfl]
    rw [alistGet_set_ne _ _ _ _ hTF]
    exact hgT4
  have hgTF : alistGet (alistSet mT T (alistSet tsT t (latest tsT + a))) F =
      alistGet mT F := alistGet_set_ne _ _ _ _ hFT
  have hcb2 : HubAgent.get_currency_balance ({ env4 with balance :=
      (alistSet env4.balance F
        (alistSet (alistSet mF F (alistSet tsF t (latest tsF - a))) F
          (alistSet (alistSet tsF t (latest tsF - a)) t
            (latest tsF - a - a)))) } : Env) T F =
      HubAgent.get_currency_balance env T F := by
    unfold HubAgent.get_currency_balance
    simp only [hgT5, hgTF, hbT]
  cases hser : alistGet mT F with
  | some ts2 =>
    have hhop : HubAgent.transfer_hop env F T a t = some
        ⟨alistSet (alistSet env4.balance F
            (alistSet (alistSet mF F (alistSet tsF t (latest tsF - a))) F
              (alistSet (alistSet tsF t (latest tsF - a)) t
                (latest tsF - a - a)))) T
          (alistSet (alistSet mT T (alistSet tsT t (latest tsT + a))) F
            (alistSet ts2 t (HubAgent.get_currency_balance env T F + a))),
         env4.supply, env4.trusts, env4.mints⟩ := by
      unfold HubAgent.transfer_hop
      simp only [htr_eval, hcbF4, hgF4, hsF1, hgT5, hcb2, hgTF, hser]
    have hFF : HubAgent.get_currency_balance
        (⟨alistSet (alistSet env4.balance F
            (alistSet (alistSet mF F (alistSet tsF t (latest tsF - a))) F
              (alistSet (alistSet tsF t (latest tsF - a)) t
                (latest tsF - a - a)))) T
          (alistSet (alistSet mT T (alistSet tsT t (latest tsT + a))) F
            (alistSet ts2 t (HubAgent.get_currency_balance env T F + a))),
         env4.supply, env4.trusts, env4.mints⟩ : Env) F F =
        latest tsF - 2 * a := by
      rw [getCB_mk _ _ _ _ F F _ _
        (by rw [alistGet_set_ne _ _ _ _ hFT]; exact alistGet_set_self _ _ _)
        (alistGet_set_self _ _ _) (alistSet_ne_nil _ _ _),
        latest_set _ _ _ hkF1]
      omega
    have hTT : HubAgent.get_currency_balance
        (⟨alistSet (alistSet env4.balance F
            (alistSet (alistSet mF F (alistSet tsF t (latest tsF - a))) F
              (alistSet (alistSet tsF t (latest tsF - a)) t
                (latest tsF - a - a)))) T
          (alistSet (alistSet mT T (alistSet tsT t (latest tsT + a))) F
            (alistSet ts2 t (HubAgent.get_currency_balance env T F + a))),
         env4.supply, env4.trusts, env4.mints⟩ : Env) T T =
        latest tsT + a := by
      rw [getCB_mk _ _ _ _ T T _ _ (alistGet_set_self _ _ _)
        (by rw [alistGet_set_ne _ _ _ _ hTF]; exact alistGet_set_self _ _ _)
        (alistSet_ne_nil _ _ _), latest_set _ _ _ hkT]
    have hTFv : HubAgent.get_currency_balance
        (⟨alistSet (alistSet env4.balance F
            (alistSet (alistSet mF F (alistSet tsF t (latest tsF - a))) F
              (alistSet (alistSet tsF t (latest tsF - a)) t
                (latest tsF - a - a)))) T
          (alistSet (alistSet mT T (alistSet tsT t (latest tsT + a))) F
            (alistSet ts2 t (HubAgent.get_currency_balance env T F + a))),
         env4.supply, env4.trusts, env4.mints⟩ : Env) T F =
        HubAgent.get_currency_balance env T F + a := by
      rw [getCB_mk _ _ _ _ T F _ _ (alistGet_set_self _ _ _)
        (alistGet_set_self _ _ _) (alistSet_ne_nil _ _ _),
        latest_set _ _ _ (htok ts2 hser)]
    exact ⟨env4, _, htr_eval, hcbF4, hcbT4, hhop, hFF, hTT, hTFv,
      by rw [hFF, hTT]; ring, by rw [hFF, hTT]; omega⟩
  | none =>
    have hcbTF0 : HubAgent.get_currency_balance env T F = 0 := by
      unfold HubAgent.get_currency_balance
      simp only [hbT, hser]
    have hhop : HubAgent.transfer_hop env F T a t = some
        ⟨alistSet (alistSet env4.balance F
            (alistSet (alistSet mF F (alistSet tsF t (latest tsF - a))) F
              (alistSet (alistSet tsF t (latest tsF - a)) t
                (latest tsF - a - a)))) T
          (alistSet (alistSet mT T (alistSet tsT t (latest tsT + a))) F
            [(t, a)]),
         env4.supply, env4.trusts, env4.mints⟩ := by
      unfold HubAgent.transfer_hop
      simp only [htr_eval, hcbF4, hgF4, hsF1, hgT5, hcb2, hgTF, hser]
    have hFF : HubAgent.get_currency_balance
        (⟨alistSet (alistSet env4.balance F
            (alistSet (alistSet mF F (alistSet tsF t (latest tsF - a))) F
              (alistSet (alistSet tsF t (latest tsF - a)) t
                (latest tsF - a - a)))) T
          (alistSet (alistSet mT T (alistSet tsT t (latest tsT + a))) F
            [(t, a)]),
         env4.supply, env4.trusts, env4.mints⟩ : Env) F F =
        latest tsF - 2 * a := by
      rw [getCB_mk _ _ _ _ F F _ _
        (by rw [alistGet_set_ne _ _ _ _ hFT]; exact alistGet_set_self _ _ _)
        (alistGet_set_self _ _ _) (alistSet_ne_nil _ _ _),
        latest_set _ _ _ hkF1]
      omega
    have hTT : HubAgent.get_currency_balance
        (⟨alistSet (alistSet env4.balance F
            (alistSet (alistSet mF F (alistSet tsF t (latest tsF - a))) F
              (alistSet (alistSet tsF t (latest tsF - a)) t
                (latest tsF - a - a)))) T
          (alistSet (alistSet mT T (alistSet tsT t (latest tsT + a))) F
            [(t, a)]),
         env4.supply, env4.trusts, env4.mints⟩ : Env) T T =
        latest tsT + a := by
      rw [getCB_mk _ _ _ _ T T _ _ (alistGet_set_self _ _ _)
        (by rw [alistGet_set_ne _ _ _ _ hTF]; exact alistGet_set_self _ _ _)
        (alistSet_ne_nil _ _ _), latest_set _ _ _ hkT]
    have hTFv : HubAgent.get_currency_balance
        (⟨alistSet (alistSet env4.balance F
            (alistSet (alistSet mF F (alistSet tsF t (latest tsF - a))) F
              (alistSet (alistSet tsF t (latest tsF - a)) t
                (latest tsF - a - a)))) T
          (alistSet (alistSet mT T (alistSet tsT t (latest tsT + a))) F
            [(t, a)]),
         env4.supply, env4.trusts, env4.mints⟩ : Env) T F =
        HubAgent.get_currency_balance env T F + a := by
      rw [getCB_mk _ _ _ _ T F _ _ (alistGet_set_self _ _ _)
        (alistGet_set_self _ _ _) (by simp), latest_singleton, hcbTF0]
      omega
    exact ⟨env4, _, htr_eval, hcbF4, hcbT4, hhop, hFF, hTT, hTFv,
      by rw [hFF, hTT]; ring, by rw [hFF, hTT]; omega⟩


/-- C10 witnessed in `envT`: the driver hop `1 → 2` of `4` at time `1` runs
`Hub.transfer` (recording `6` and `7`) and then the direct dict writes leave
`1`'s recorded self-balance at `2 = 10 - 2·4`, `2`'s at `7`, and the
`(2, 1)` token entry at `4`. -/
theorem C10_driver_hop_witness :
    ∃ envMid env3,
      Hub.transfer envT 1 2 4 1 = some (6, 7, envMid) ∧
      HubAgent.transfer_hop envT 1 2 4 1 = some env3 ∧
      HubAgent.get_currency_balance env3 1 1 = 2 ∧
      HubAgent.get_currency_balance env3 2 2 = 7 ∧
      HubAgent.get_currency_balance env3 2 1 = 4 := by
  obtain ⟨em, e3, h1, h2, h3, h4, h5, h6, h7, h8, h9⟩ :=
    C10_driver_hop_double_applies envT 1 2 4 1 [(1, [(0, 10)])] [(0, 10)]
      [(2, [(0, 3)])] [(0, 3)] [(0, 10)] [(0, 3)]
      [(1, ⟨0, 50, 1000⟩)] ⟨0, 50, 1000⟩
      (by decide) (by decide) (by decide) (by decide) (by decide) (by decide)
      (by decide) (by decide) (by decide) (by decide) (by decide)
      (by unfold keyBound; decide) (by unfold keyBound; decide)
      (by decide) (by decide) (by decide) (by decide) (by decide)
      (by decide) (by decide) (by decide)
      (by
        intro ts2 h
        rw [show alistGet ([(2, [(0, 3)])] :
          List (ℤ × List (ℤ × ℤ))) 1 = none from by decide] at h
        exact Option.noConfusion h)
  have hl1 : latest [(0, 10)] = 10 := by decide
  have hl2 : latest [(0, 3)] = 3 := by decide
  rw [hl1, hl2] at h1
  rw [hl1] at h5
  rw [hl2] at h6
  have h0 : HubAgent.get_currency_balance envT 2 1 = 0 := by decide
  rw [h0] at h7
  norm_num at h1 h5 h6 h7
  exact ⟨em, e3, h1, h4, h5, h6, h7⟩


end CirclesSim
